import Mathlib

/-!
# Authorization context of `pkg/authorization`

A shallow embedding of `pkg/authorization/api.go` and `pkg/authorization/authz.go`.

* Go byte slices are `Option (List Nat)`: `none` is the nil slice, so that the
  `!= nil` tests of `AuthZResponse` can be expressed.
* Every call on a collaborator (an authorization plugin, the response modifier)
  is recorded in a trace of `Event`s, in program order.
* A call that would dereference a nil pointer ends in `Outcome.panic`.
-/

namespace Authorization

/-! ## Go values -/

/-- A Go byte slice, `none` being the nil slice. -/
abbrev ByteSlice := Option (List Nat)

/-- A Go error value, either built by `fmt.Errorf` or handed over by a collaborator. -/
inductive GoError where
  | formatted (text : String)
  | foreign (id : Nat) (text : String)
deriving DecidableEq, Repr

/-- The text returned by the `Error()` method. -/
def GoError.Error : GoError → String
  | .formatted text => text
  | .foreign _ text => text

/-! ## `fmt.Errorf` called with a format and no operands

The functions below follow `doPrintf` of the Go `fmt` package for an empty
operand list. Formats are lists of characters. -/

/-- The flag characters skipped by the `simpleFormat` loop. -/
def isFlag (c : Char) : Bool :=
  c == '#' || c == '0' || c == '+' || c == '-' || c == ' '

/-- The loop of `parsenum`: the number read so far, whether a digit was seen, and the
unread characters. A number above one million gives up and jumps to the end. -/
def parsenumLoop : Nat → Bool → List Char → Nat × Bool × List Char
  | num, isnum, [] => (num, isnum, [])
  | num, isnum, c :: cs =>
    if c.isDigit then
      if 1000000 < num then (0, false, [])
      else parsenumLoop (num * 10 + (c.toNat - 48)) true cs
    else (num, isnum, c :: cs)

/-- The function `parsenum` on the characters from `start` up to `end`. -/
def parsenum (s : List Char) : Nat × Bool × List Char :=
  parsenumLoop 0 false s

/-- The function `parseArgNumber` on a format that starts with an opening bracket:
whether a well-formed index was read, and the characters left after it. -/
def parseArgNumber (s : List Char) : Bool × List Char :=
  if s.length < 3 then (false, s.tail)
  else
    let inner := s.tail.takeWhile (· != ']')
    match s.tail.dropWhile (· != ']') with
    | [] => (false, s.tail)
    | _ :: afterBracket =>
      let (_, ok, unread) := parsenum inner
      if !ok || !unread.isEmpty then (false, afterBracket)
      else (true, afterBracket)

/-- The method `argNumber` with no operands: the characters left, `found`, and the new
value of `goodArgNum`. With no operands every explicit index is out of range. -/
def argNumber (s : List Char) (goodArgNum : Bool) : List Char × Bool × Bool :=
  match s with
  | '[' :: _ =>
    let (ok, unread) := parseArgNumber s
    (unread, ok, false)
  | _ => (s, false, goodArgNum)

/-- The state of `doPrintf` while it scans one verb: the format left, the variables
`afterIndex` and `goodArgNum`, and the text written so far for this verb. -/
structure Scan where
  unread : List Char
  afterIndex : Bool
  good : Bool
  out : List Char

/-- The width part of a verb. A star asks for an operand, and there is none. -/
def scanWidth (st : Scan) : Scan :=
  match st.unread with
  | '*' :: s1 =>
    { st with unread := s1, afterIndex := false, out := st.out ++ "%!(BADWIDTH)".data }
  | s =>
    let (_, widPresent, s1) := parsenum s
    { st with unread := s1, good := if st.afterIndex && widPresent then false else st.good }

/-- The precision part of a verb, entered on a dot. -/
def scanPrecision (st : Scan) : Scan :=
  match st.unread with
  | '.' :: s1 =>
    let good := if st.afterIndex then false else st.good
    let (s2, afterIndex, good) := argNumber s1 good
    match s2 with
    | '*' :: s3 =>
      { unread := s3, afterIndex := false, good := good, out := st.out ++ "%!(BADPREC)".data }
    | _ =>
      let (_, _, s3) := parsenum s2
      { unread := s3, afterIndex := afterIndex, good := good, out := st.out }
  | _ => st

/-- The argument index that may stand right before the verb. -/
def scanIndex (st : Scan) : Scan :=
  if !st.afterIndex then
    let (s1, afterIndex, good) := argNumber st.unread st.good
    { st with unread := s1, afterIndex := afterIndex, good := good }
  else st

/-- The result of formatting one verb. -/
structure VerbResult where
  /-- The text written for the verb. -/
  out : List Char
  /-- The format left to process. -/
  unread : List Char
  /-- Whether the format loop was left (no verb before the end of the format). -/
  stop : Bool

/-- The verb itself: a percent sign is written as such, any other verb reports a bad
index or a missing operand, and a format that ends before the verb reports that. -/
def scanVerb (st : Scan) : VerbResult :=
  match st.unread with
  | [] => ⟨st.out ++ "%!(NOVERB)".data, [], true⟩
  | verb :: s1 =>
    if verb == '%' then ⟨st.out ++ [verb], s1, false⟩
    else if !st.good then ⟨st.out ++ "%!".data ++ [verb] ++ "(BADINDEX)".data, s1, false⟩
    else ⟨st.out ++ "%!".data ++ [verb] ++ "(MISSING)".data, s1, false⟩

/-- One verb of `doPrintf` with no operands, started right after the percent sign: flags,
argument index, width, precision, argument index, verb. -/
def formatVerb (s : List Char) : VerbResult :=
  let (s1, afterIndex, good) := argNumber (s.dropWhile isFlag) true
  scanVerb (scanIndex (scanPrecision (scanWidth ⟨s1, afterIndex, good, []⟩)))

/-- The format loop of `doPrintf` with no operands. Each round copies the text up to the
next percent sign and formats one verb; `fuel` bounds the number of rounds. -/
def doPrintf : Nat → List Char → List Char
  | 0, _ => []
  | fuel + 1, s =>
    let literal := s.takeWhile (· != '%')
    match s.dropWhile (· != '%') with
    | [] => literal
    | _ :: afterPercent =>
      let v := formatVerb afterPercent
      literal ++ v.out ++ (if v.stop then [] else doPrintf fuel v.unread)

/-- The call `fmt.Sprintf(format)`. A round consumes at least the percent sign, so the
length of the format plus one is enough fuel. -/
def Sprintf (format : String) : String :=
  String.mk (doPrintf (format.length + 1) format.data)

/-- The call `fmt.Errorf(format)`: always a non-nil error. -/
def Errorf (format : String) : GoError :=
  .formatted (Sprintf format)

/-! ## `api.go` -/

/-- The record `Request` handed to every authorization plugin. -/
structure Request where
  User : String
  UserAuthNMethod : String
  RequestMethod : String
  RequestUri : String
  RequestBody : ByteSlice
  RequestHeaders : ByteSlice
  ResponseStatusCode : Int
  ResponseBody : ByteSlice
  ResponseHeaders : ByteSlice
deriving DecidableEq, Repr

/-- The record `Response` returned by an authorization plugin. -/
structure Response where
  Allow : Bool
  Msg : String
  ModifiedBody : ByteSlice
  ModifiedHeader : ByteSlice
  ModifiedStatusCode : Int
deriving DecidableEq, Repr

/-! ## Collaborators

The interfaces `AuthorizationPlugin` and `ResponseModifier` are declared outside the two
source files; `io.ReadCloser` and `http.Request` belong to the Go library. -/

/-- What a plugin call returns: `(nil, err)` or `(authRes, nil)`. -/
inductive CallResult where
  | failed (err : GoError)
  | verdict (authRes : Response)
deriving DecidableEq, Repr

/-- A plugin call that returned no error and a verdict with `Allow` set. -/
def CallResult.allows : CallResult → Bool
  | .failed _ => false
  | .verdict authRes => authRes.Allow

/-- The verdict of a call, if the call returned one. -/
def CallResult.verdict? : CallResult → Option Response
  | .failed _ => none
  | .verdict authRes => some authRes

/-- An authorization plugin: its two methods, as functions of the request description
they are passed. A plugin does not modify the description. -/
structure AuthorizationPlugin where
  AuthZRequest : Request → CallResult
  AuthZResponse : Request → CallResult

/-- A call on a collaborator. Plugin calls carry the position of the plugin in the list,
the request description passed and what the call returned. -/
inductive Event where
  | pluginRequest (pos : Nat) (authReq : Request) (res : CallResult)
  | pluginResponse (pos : Nat) (authReq : Request) (res : CallResult)
  | rawBody
  | rawHeaders
  | statusCode
  | overrideBody (b : ByteSlice)
  | overrideHeader (b : ByteSlice)
  | overrideStatusCode (statusCode : Int)
  | flush
deriving DecidableEq, Repr

/-- How a call of the context ended. -/
inductive Outcome where
  | ok
  | error (err : GoError)
  | panic
deriving DecidableEq, Repr

/-- An `io.ReadCloser`: the bytes it yields until it is exhausted, the error `Read`
reports instead of `io.EOF` (if any), and the error `Close` reports (if any). -/
structure ReadCloser where
  data : List Nat
  readErr : Option GoError
  closeErr : Option GoError
deriving DecidableEq, Repr

/-- Reads a stream to its end, as `bytes.Buffer.ReadFrom` and `ioutil.ReadAll` do: the
bytes read, the error if reading did not end in `io.EOF`, and the exhausted stream. -/
def ReadCloser.ReadAll (b : ReadCloser) : List Nat × Option GoError × ReadCloser :=
  (b.data, b.readErr, { b with data := [] })

/-- The reader `ioutil.NopCloser` builds over an in-memory copy of `data`. -/
def NopCloser (data : List Nat) : ReadCloser :=
  { data := data, readErr := none, closeErr := none }

/-- The header collection of an `http.Request`, as far as `Header.Write` shows it: the
bytes the call leaves in the buffer and the error it returns. -/
structure Header where
  wire : ByteSlice
  writeErr : Option GoError
deriving DecidableEq, Repr

/-- The part of `http.Request` that `AuthZRequest` touches. `Body` is `none` for nil. -/
structure HttpRequest where
  Body : Option ReadCloser
  Header : Header
deriving DecidableEq, Repr

/-- Modelled from the spec: the response capability behind the `ResponseModifier`
interface, whose implementation is not in the source files. It holds the current body,
headers and status of the response, the error `RawHeaders` reports (if any), and the
number of times it was flushed. -/
structure ResponseModifier where
  body : ByteSlice
  headers : ByteSlice
  headersErr : Option GoError
  status : Int
  flushed : Nat
deriving DecidableEq, Repr

/-- Modelled from the spec: the reader `currentBody`. -/
def ResponseModifier.RawBody (rm : ResponseModifier) : ByteSlice := rm.body

/-- Modelled from the spec: the reader `currentHeaders`, which may fail. -/
def ResponseModifier.RawHeaders (rm : ResponseModifier) : ByteSlice × Option GoError :=
  (rm.headers, rm.headersErr)

/-- Modelled from the spec: the reader `currentStatus`. -/
def ResponseModifier.StatusCode (rm : ResponseModifier) : Int := rm.status

/-- Modelled from the spec: the writer `overrideBody`. -/
def ResponseModifier.OverrideBody (rm : ResponseModifier) (b : ByteSlice) : ResponseModifier :=
  { rm with body := b }

/-- Modelled from the spec: the writer `overrideHeaders`. -/
def ResponseModifier.OverrideHeader (rm : ResponseModifier) (b : ByteSlice) : ResponseModifier :=
  { rm with headers := b }

/-- Modelled from the spec: the writer `overrideStatus`. -/
def ResponseModifier.OverrideStatusCode (rm : ResponseModifier) (statusCode : Int) :
    ResponseModifier :=
  { rm with status := statusCode }

/-- Modelled from the spec: the step `commit`. -/
def ResponseModifier.Flush (rm : ResponseModifier) : ResponseModifier :=
  { rm with flushed := rm.flushed + 1 }

/-! ## `authz.go` -/

/-- The authorization context. `authReq` is `none` while the pointer is nil. -/
structure Ctx where
  user : String
  userAuthNMethod : String
  requestMethod : String
  requestUri : String
  plugins : List AuthorizationPlugin
  authReq : Option Request

/-- The constructor `NewCtx`. -/
def NewCtx (authZPlugins : List AuthorizationPlugin)
    (user userAuthNMethod requestMethod requestUri : String) : Ctx :=
  { plugins := authZPlugins, user := user, userAuthNMethod := userAuthNMethod,
    requestMethod := requestMethod, requestUri := requestUri, authReq := none }

/-- The function `drainBody`: the two readers and the error, as returned. -/
def drainBody (b : ReadCloser) : Option ReadCloser × Option ReadCloser × Option GoError :=
  match b.ReadAll with
  | (_, some err, _) => (none, none, some err)
  | (buf, none, _) =>
    match b.closeErr with
    | some err => (none, none, some err)
    | none => (some (NopCloser buf), some (NopCloser buf), none)

/-- The composite literal `&Request{...}` of `AuthZRequest`. -/
def Ctx.newRequest (a : Ctx) (body headers : ByteSlice) : Request :=
  { User := a.user, UserAuthNMethod := a.userAuthNMethod, RequestMethod := a.requestMethod,
    RequestUri := a.requestUri, RequestBody := body, RequestHeaders := headers,
    ResponseStatusCode := 0, ResponseBody := none, ResponseHeaders := none }

/-- The plugin loop of `AuthZRequest`, from position `pos` on: the error returned (if
any) and the plugin calls made. -/
def requestLoop (authReq : Request) : List AuthorizationPlugin → Nat → Outcome × List Event
  | [], _ => (.ok, [])
  | plugin :: rest, pos =>
    let res := plugin.AuthZRequest authReq
    let ev := Event.pluginRequest pos authReq res
    match res with
    | .failed err => (.error err, [ev])
    | .verdict authRes =>
      if !authRes.Allow then (.error (Errorf authRes.Msg), [ev])
      else
        let run := requestLoop authReq rest (pos + 1)
        (run.1, ev :: run.2)

/-- What a call of `AuthZRequest` leaves behind. -/
structure RequestRun where
  outcome : Outcome
  ctx : Ctx
  r : HttpRequest
  trace : List Event

/-- The method `Ctx.AuthZRequest`. The response writer `w` is never used. -/
def Ctx.AuthZRequest (a : Ctx) (r : HttpRequest) : RequestRun :=
  match r.Body with
  | none => ⟨.panic, a, r, []⟩
  | some b =>
    let (drainedBody, rBody, err) := drainBody b
    let r := { r with Body := rBody }
    match err with
    | some err => ⟨.error err, a, r, []⟩
    | none =>
      match drainedBody with
      | none => ⟨.panic, a, r, []⟩
      | some drainedBody =>
        match drainedBody.ReadAll with
        | (_, some err, _) => ⟨.error err, a, r, []⟩
        | (body, none, _) =>
          match r.Header.writeErr with
          | some err => ⟨.error err, a, r, []⟩
          | none =>
            let authReq := a.newRequest (some body) r.Header.wire
            let a := { a with authReq := some authReq }
            let run := requestLoop authReq a.plugins 0
            ⟨run.1, a, r, run.2⟩

/-- The running values `modifiedBody`, `modifiedHeaders` and `modifiedStatusCode`. -/
structure Running where
  modifiedBody : ByteSlice
  modifiedHeaders : ByteSlice
  modifiedStatusCode : Int
deriving DecidableEq, Repr

/-- The three assignments that write the running values into the request description
before a plugin is called in the response phase. -/
def Request.pipe (authReq : Request) (st : Running) : Request :=
  { authReq with
    ResponseBody := st.modifiedBody,
    ResponseHeaders := st.modifiedHeaders,
    ResponseStatusCode := st.modifiedStatusCode }

/-- What the plugin loop of `AuthZResponse` leaves behind. -/
structure LoopRun where
  outcome : Outcome
  authReq : Option Request
  running : Running
  trace : List Event

/-- The plugin loop of `AuthZResponse`, from position `pos` on. Writing the running values
through a nil `authReq` panics. -/
def responseLoop : List AuthorizationPlugin → Nat → Option Request → Running → LoopRun
  | [], _, authReq, st => ⟨.ok, authReq, st, []⟩
  | _ :: _, _, none, st => ⟨.panic, none, st, []⟩
  | plugin :: rest, pos, some authReq, st =>
    let authReq := authReq.pipe st
    let res := plugin.AuthZResponse authReq
    let ev := Event.pluginResponse pos authReq res
    match res with
    | .failed err => ⟨.error err, some authReq, st, [ev]⟩
    | .verdict authRes =>
      if !authRes.Allow then ⟨.error (Errorf authRes.Msg), some authReq, st, [ev]⟩
      else
        let st : Running :=
          { modifiedBody :=
              if authRes.ModifiedBody != none then authRes.ModifiedBody else st.modifiedBody,
            modifiedHeaders :=
              if authRes.ModifiedHeader != none then authRes.ModifiedHeader
              else st.modifiedHeaders,
            modifiedStatusCode :=
              if authRes.ModifiedStatusCode > 0 then authRes.ModifiedStatusCode
              else st.modifiedStatusCode }
        let run := responseLoop rest (pos + 1) (some authReq) st
        { run with trace := ev :: run.trace }

/-- What a call of `AuthZResponse` leaves behind. -/
structure ResponseRun where
  outcome : Outcome
  ctx : Ctx
  rm : ResponseModifier
  trace : List Event

/-- The method `Ctx.AuthZResponse`. The request `r` is never used. -/
def Ctx.AuthZResponse (a : Ctx) (rm : ResponseModifier) : ResponseRun :=
  let modifiedBody := rm.RawBody
  match rm.RawHeaders with
  | (_, some err) => ⟨.error err, a, rm, [.rawBody, .rawHeaders]⟩
  | (modifiedHeaders, none) =>
    let modifiedStatusCode := rm.StatusCode
    let run := responseLoop a.plugins 0 a.authReq
      ⟨modifiedBody, modifiedHeaders, modifiedStatusCode⟩
    let a := { a with authReq := run.authReq }
    let reads := [Event.rawBody, Event.rawHeaders, Event.statusCode]
    match run.outcome with
    | .ok =>
      let (rm, evB) :=
        if run.running.modifiedBody != none then
          (rm.OverrideBody run.running.modifiedBody,
            [Event.overrideBody run.running.modifiedBody])
        else (rm, [])
      let (rm, evH) :=
        if run.running.modifiedHeaders != none then
          (rm.OverrideHeader run.running.modifiedHeaders,
            [Event.overrideHeader run.running.modifiedHeaders])
        else (rm, [])
      ⟨.ok, a, rm.Flush, reads ++ run.trace ++ evB ++ evH ++ [.flush]⟩
    | outcome => ⟨outcome, a, rm, reads ++ run.trace⟩

/-! ## Streams as objects

The definitions above describe a stream by the state it is in when it is handed over.
To follow what reading does to a stream that several holders can reach, the definitions
below keep the stream objects on a heap: an `io.ReadCloser` is a reference, a read moves
the read position of the object it refers to, and the in-memory readers that `drainBody`
builds read a backing array that stays on the heap. -/

/-- A reference to a stream object: an `io.ReadCloser` value. -/
abbrev StreamRef := Nat

/-- A stream object. A `source` is a stream handed in from outside, described by the bytes
it still yields and the errors of its `Read` and `Close`, with a flag for `Close` having
been called. A `memory` stream is a `bytes.Buffer` or a `bytes.Reader` behind
`ioutil.NopCloser`: it reads the backing array `arr` from the offset `off` on. -/
inductive Stream where
  | source (state : ReadCloser) (closed : Bool)
  | memory (arr : Nat) (off : Nat)
deriving DecidableEq, Repr

/-- The heap: the stream objects, by reference, and the backing arrays, by index. -/
structure Heap where
  streams : List Stream
  arrays : List (List Nat)
deriving DecidableEq, Repr

/-- The method `Read` with room for `n` bytes: the bytes read, and the heap in which the
stream has moved on by that many bytes. -/
def Heap.Read (h : Heap) (ref : StreamRef) (n : Nat) : List Nat × Heap :=
  match h.streams[ref]? with
  | some (.source state closed) =>
    (state.data.take n,
      { h with
        streams := h.streams.set ref (.source { state with data := state.data.drop n } closed) })
  | some (.memory arr off) =>
    (((h.arrays.getD arr []).drop off).take n,
      { h with
        streams := h.streams.set ref
          (.memory arr (off + (((h.arrays.getD arr []).drop off).take n).length)) })
  | none => ([], h)

/-- Reads a stream to its end, as `bytes.Buffer.ReadFrom` and `ioutil.ReadAll` do: the
bytes read, the error if reading did not end in `io.EOF`, and the heap in which the
stream is exhausted. -/
def Heap.ReadAll (h : Heap) (ref : StreamRef) : List Nat × Option GoError × Heap :=
  match h.streams[ref]? with
  | some (.source state closed) =>
    (state.data, state.readErr,
      { h with streams := h.streams.set ref (.source { state with data := [] } closed) })
  | some (.memory arr off) =>
    ((h.arrays.getD arr []).drop off, none,
      { h with
        streams := h.streams.set ref
          (.memory arr (off + ((h.arrays.getD arr []).drop off).length)) })
  | none => ([], none, h)

/-- The method `Close`: a source reports its close error and is closed from then on; the
`Close` of `ioutil.NopCloser` does nothing. -/
def Heap.Close (h : Heap) (ref : StreamRef) : Option GoError × Heap :=
  match h.streams[ref]? with
  | some (.source state _) =>
    (state.closeErr, { h with streams := h.streams.set ref (.source state true) })
  | _ => (none, h)

/-- The function `drainBody` on the heap. `buf.ReadFrom(b)` reads `b` to its end into a
new backing array and `b.Close()` closes it; the first reader returned is the buffer
itself, the second a `bytes.Reader` over `buf.Bytes()`, the same backing array, each with
a read offset of its own. -/
def Heap.drainBody (h : Heap) (b : StreamRef) :
    Option StreamRef × Option StreamRef × Option GoError × Heap :=
  match h.ReadAll b with
  | (_, some err, h1) => (none, none, some err, h1)
  | (buf, none, h1) =>
    match h1.Close b with
    | (some err, h2) => (none, none, some err, h2)
    | (none, h2) =>
      let arr := h2.arrays.length
      let r1 := h2.streams.length
      let r2 := h2.streams.length + 1
      (some r1, some r2, none,
        { streams := h2.streams ++ [.memory arr 0, .memory arr 0],
          arrays := h2.arrays ++ [buf] })

/-- The part of `http.Request` that `AuthZRequest` touches, with the body as a reference. -/
structure HeapRequest where
  Body : Option StreamRef
  Header : Header
deriving DecidableEq, Repr

/-- What a call of `AuthZRequest` leaves behind, heap included. -/
structure HeapRun where
  outcome : Outcome
  ctx : Ctx
  r : HeapRequest
  heap : Heap
  trace : List Event

/-- The method `Ctx.AuthZRequest` on the heap: as `Ctx.AuthZRequest` above, with the body
drained, read and installed by reference. The deferred `drainedBody.Close()` runs on
every return that follows it. -/
def Heap.AuthZRequest (h : Heap) (a : Ctx) (r : HeapRequest) : HeapRun :=
  match r.Body with
  | none => ⟨.panic, a, r, h, []⟩
  | some b =>
    match h.drainBody b with
    | (_, rBody, some err, h1) => ⟨.error err, a, { r with Body := rBody }, h1, []⟩
    | (none, rBody, none, h1) => ⟨.panic, a, { r with Body := rBody }, h1, []⟩
    | (some drainedBody, rBody, none, h1) =>
      let r := { r with Body := rBody }
      match h1.ReadAll drainedBody with
      | (_, some err, h2) => ⟨.error err, a, r, (h2.Close drainedBody).2, []⟩
      | (body, none, h2) =>
        match r.Header.writeErr with
        | some err => ⟨.error err, a, r, (h2.Close drainedBody).2, []⟩
        | none =>
          let authReq := a.newRequest (some body) r.Header.wire
          let a := { a with authReq := some authReq }
          let run := requestLoop authReq a.plugins 0
          ⟨run.1, a, r, (h2.Close drainedBody).2, run.2⟩

/-- The heap `drainBody` leaves, as its two readers move on: the streams `streams` that
were there before, then the buffer at the offset `off1` and the reader at the offset
`off2`, both over the new backing array, which holds `buf`. -/
def drainedHeap (streams : List Stream) (arrays : List (List Nat)) (buf : List Nat)
    (off1 off2 : Nat) : Heap :=
  { streams := streams ++ [.memory arrays.length off1, .memory arrays.length off2],
    arrays := arrays ++ [buf] }

/-- A heap that holds one stream: a request body with the bytes `1 2 3`. -/
def sampleHeap : Heap :=
  { streams := [.source { data := [1, 2, 3], readErr := none, closeErr := none } false],
    arrays := [] }

/-- The request whose body is the stream of `sampleHeap`. -/
def sampleHeapRequest : HeapRequest :=
  { Body := some 0, Header := { wire := some [72, 58, 49], writeErr := none } }

/-! ## Reading traces -/

/-- The position of the plugin called, for a plugin call. -/
def Event.pluginPos? : Event → Option Nat
  | .pluginRequest pos _ _ => some pos
  | .pluginResponse pos _ _ => some pos
  | _ => none

/-- The positions of the plugins called in a trace, in call order. -/
def invoked (trace : List Event) : List Nat :=
  trace.filterMap Event.pluginPos?

/-- The request-phase call of the plugin at position `pos` on `authReq`. -/
def requestCall (authReq : Request) (pos : Nat) (plugin : AuthorizationPlugin) : Event :=
  .pluginRequest pos authReq (plugin.AuthZRequest authReq)

/-- The description passed and the result returned, for a response-phase plugin call. -/
def Event.responseCall? : Event → Option (Request × CallResult)
  | .pluginResponse _ authReq res => some (authReq, res)
  | _ => none

/-- The response-phase plugin calls of a trace, in call order. -/
def responseCalls (trace : List Event) : List (Request × CallResult) :=
  trace.filterMap Event.responseCall?

/-- The verdicts returned by a list of plugin calls, in call order. -/
def verdicts (calls : List (Request × CallResult)) : List Response :=
  calls.filterMap (fun c => c.2.verdict?)

/-- Whether an event overrides the body, the headers or the status of the response. -/
def Event.isOverride : Event → Bool
  | .overrideBody _ => true
  | .overrideHeader _ => true
  | .overrideStatusCode _ => true
  | _ => false

/-- Whether an event is a plugin call. -/
def Event.isPluginCall : Event → Bool
  | .pluginRequest _ _ _ => true
  | .pluginResponse _ _ _ => true
  | _ => false

/-- Whether an event writes to the response modifier: an override or a flush. -/
def Event.isWrite : Event → Bool
  | .flush => true
  | ev => ev.isOverride

/-- Whether an event is a call of `OverrideBody`. -/
def Event.isOverrideBody : Event → Bool
  | .overrideBody _ => true
  | _ => false

/-- Whether an event is a call of `OverrideHeader`. -/
def Event.isOverrideHeader : Event → Bool
  | .overrideHeader _ => true
  | _ => false

/-- A verdict that allows and supplies no replacement body, headers or status. -/
def Response.plain (authRes : Response) : Prop :=
  authRes.Allow = true ∧ authRes.ModifiedBody = none ∧ authRes.ModifiedHeader = none ∧
    authRes.ModifiedStatusCode ≤ 0

instance (authRes : Response) : Decidable authRes.plain := by
  unfold Response.plain
  infer_instance

/-! ## The fold of the rewrites, as the specification words it -/

/-- A replacement that is supplied replaces the running value; an absent one leaves the
running value as it is. -/
def replace (running replacement : ByteSlice) : ByteSlice :=
  match replacement with
  | some b => some b
  | none => running

/-- The rewrite of one verdict applied to the running body, headers and status. A status
that is not positive is no rewrite. -/
def applyRewrite (st : Running) (authRes : Response) : Running :=
  { modifiedBody := replace st.modifiedBody authRes.ModifiedBody,
    modifiedHeaders := replace st.modifiedHeaders authRes.ModifiedHeader,
    modifiedStatusCode :=
      if 0 < authRes.ModifiedStatusCode then authRes.ModifiedStatusCode
      else st.modifiedStatusCode }

/-- The left fold of the rewrites of a list of verdicts over the original values. -/
def foldRewrites (orig : Running) (vs : List Response) : Running :=
  vs.foldl applyRewrite orig

/-- The fold of the rewrites along a plugin list, as the specification words the response
phase: each plugin, in list order, is consulted on the description `q` carrying the
running values, and its rewrite is applied to them; `none` as soon as one plugin fails or
denies. -/
def pipeFold (q : Request) : List AuthorizationPlugin → Running → Option Running
  | [], st => some st
  | plugin :: rest, st =>
    match plugin.AuthZResponse (q.pipe st) with
    | .failed _ => none
    | .verdict authRes =>
      if authRes.Allow then pipeFold q rest (applyRewrite st authRes) else none

/-- The values a response modifier shows to its three readers. -/
def ResponseModifier.original (rm : ResponseModifier) : Running :=
  { modifiedBody := rm.RawBody, modifiedHeaders := rm.RawHeaders.1,
    modifiedStatusCode := rm.StatusCode }

/-- The body held after a trace: the value passed to the last `OverrideBody`, otherwise
the value originally read. -/
def heldBody (orig : ByteSlice) (trace : List Event) : ByteSlice :=
  trace.foldl (fun held ev => match ev with | .overrideBody b => b | _ => held) orig

/-- The headers held after a trace: the value passed to the last `OverrideHeader`,
otherwise the value originally read. -/
def heldHeaders (orig : ByteSlice) (trace : List Event) : ByteSlice :=
  trace.foldl (fun held ev => match ev with | .overrideHeader b => b | _ => held) orig

/-- The status held after a trace: the value passed to the last status override,
otherwise the value originally read. -/
def heldStatus (orig : Int) (trace : List Event) : Int :=
  trace.foldl (fun held ev => match ev with | .overrideStatusCode c => c | _ => held) orig

/-- The response-facing fields of a request description. -/
def Request.responseFacts (authReq : Request) : Running :=
  { modifiedBody := authReq.ResponseBody, modifiedHeaders := authReq.ResponseHeaders,
    modifiedStatusCode := authReq.ResponseStatusCode }

/-- The overrides that commit the running body and headers `st`: one `OverrideBody` when
the body is present, then one `OverrideHeader` when the headers are present. -/
def overrideEvents (st : Running) : List Event :=
  (match st.modifiedBody with
    | some b => [Event.overrideBody (some b)]
    | none => []) ++
  (match st.modifiedHeaders with
    | some h => [Event.overrideHeader (some h)]
    | none => [])

/-- The three reads that open the response phase. -/
def readEvents : List Event := [.rawBody, .rawHeaders, .statusCode]

/-! ## Test doubles -/

/-- A verdict that allows and rewrites nothing. -/
def plainAllow : Response :=
  { Allow := true, Msg := "", ModifiedBody := none, ModifiedHeader := none,
    ModifiedStatusCode := 0 }

/-- A plugin that answers every call, in both phases, with the same verdict. -/
def constPlugin (authRes : Response) : AuthorizationPlugin :=
  { AuthZRequest := fun _ => .verdict authRes, AuthZResponse := fun _ => .verdict authRes }

/-- A plugin that allows everything and rewrites nothing. -/
def allowAll : AuthorizationPlugin := constPlugin plainAllow

/-- A plugin that denies every call with the message `msg`. -/
def denyWith (msg : String) : AuthorizationPlugin :=
  constPlugin { plainAllow with Allow := false, Msg := msg }

/-- A plugin that allows every request and denies every response with the message `msg`. -/
def denyResponseWith (msg : String) : AuthorizationPlugin :=
  { AuthZRequest := fun _ => .verdict plainAllow,
    AuthZResponse := fun _ => .verdict { plainAllow with Allow := false, Msg := msg } }

/-- A plugin whose calls all fail with the error `err`. -/
def failWith (err : GoError) : AuthorizationPlugin :=
  { AuthZRequest := fun _ => .failed err, AuthZResponse := fun _ => .failed err }

/-- A plugin that allows and replaces the response body by `b`. -/
def rewriteBody (b : List Nat) : AuthorizationPlugin :=
  constPlugin { plainAllow with ModifiedBody := some b }

/-- A plugin that allows and replaces the response status by `statusCode`. -/
def rewriteStatus (statusCode : Int) : AuthorizationPlugin :=
  constPlugin { plainAllow with ModifiedStatusCode := statusCode }

/-- A context for the session of user `alice` asking for the daemon version. -/
def sampleCtx (plugins : List AuthorizationPlugin) : Ctx :=
  NewCtx plugins "alice" "krb" "GET" "/v1.21/version"

/-- A request with the three body bytes `1 2 3`, readable and closable. -/
def sampleRequest : HttpRequest :=
  { Body := some { data := [1, 2, 3], readErr := none, closeErr := none },
    Header := { wire := some [72, 58, 49], writeErr := none } }

/-- The snapshot `AuthZRequest` takes of `sampleRequest` in `sampleCtx`. -/
def sampleSnapshot : Request :=
  { User := "alice", UserAuthNMethod := "krb", RequestMethod := "GET",
    RequestUri := "/v1.21/version", RequestBody := some [1, 2, 3],
    RequestHeaders := some [72, 58, 49], ResponseStatusCode := 0, ResponseBody := none,
    ResponseHeaders := none }

/-- A response with status 200, the body bytes `7 8` and the header bytes `9`. -/
def sampleResponse : ResponseModifier :=
  { body := some [7, 8], headers := some [9], headersErr := none, status := 200,
    flushed := 0 }

/-- The context of `sampleCtx` once `AuthZRequest` has stored its snapshot. -/
def sessionCtx (plugins : List AuthorizationPlugin) : Ctx :=
  { sampleCtx plugins with authReq := some sampleSnapshot }

/-- A plugin that allows and replaces the response headers by `h`. -/
def rewriteHeader (h : List Nat) : AuthorizationPlugin :=
  constPlugin { plainAllow with ModifiedHeader := some h }

/-- A request whose body cannot be read: `Read` reports the error `err`. -/
def unreadableRequest (err : GoError) : HttpRequest :=
  { Body := some { data := [1, 2], readErr := some err, closeErr := none },
    Header := { wire := some [72, 58, 49], writeErr := none } }

/-! ## The formatter terminates within its fuel -/

theorem parsenumLoop_length (s : List Char) (num : Nat) (isnum : Bool) :
    (parsenumLoop num isnum s).2.2.length ≤ s.length := by
  induction s generalizing num isnum with
  | nil => simp [parsenumLoop]
  | cons c cs ih =>
    unfold parsenumLoop
    split_ifs
    · simp
    · exact Nat.le_succ_of_le (ih _ _)
    · simp

theorem dropWhile_length_le (p : Char → Bool) (s : List Char) :
    (s.dropWhile p).length ≤ s.length :=
  (List.dropWhile_sublist p).length_le

theorem parseArgNumber_length (s : List Char) :
    (parseArgNumber s).2.length ≤ s.length := by
  have htail : s.tail.length ≤ s.length := by simp
  unfold parseArgNumber
  split_ifs
  · exact htail
  · have hd := dropWhile_length_le (· != ']') s.tail
    split
    · exact htail
    · rename_i c afterBracket heq
      rw [heq] at hd
      simp only [List.length_cons] at hd
      have : afterBracket.length ≤ s.length := by omega
      dsimp only
      split_ifs <;> exact this

theorem argNumber_length (s : List Char) (good : Bool) :
    (argNumber s good).1.length ≤ s.length := by
  unfold argNumber
  split
  · exact parseArgNumber_length _
  · exact le_refl _

theorem scanWidth_length (st : Scan) : (scanWidth st).unread.length ≤ st.unread.length := by
  unfold scanWidth
  split
  · rename_i s1 heq
    simp [heq]
  · exact parsenumLoop_length _ _ _

theorem scanPrecision_length (st : Scan) :
    (scanPrecision st).unread.length ≤ st.unread.length := by
  unfold scanPrecision
  split
  · rename_i s1 heq
    have h1 := argNumber_length s1 (if st.afterIndex then false else st.good)
    rw [heq]
    simp only [List.length_cons]
    split
    · rename_i s3 heq2
      simp only at heq2 ⊢
      rw [heq2] at h1
      simp only [List.length_cons] at h1
      omega
    · have h2 := parsenumLoop_length (argNumber s1 (if st.afterIndex then false else st.good)).1
        0 false
      exact Nat.le_succ_of_le (h2.trans h1)
  · exact le_refl _

theorem scanIndex_length (st : Scan) : (scanIndex st).unread.length ≤ st.unread.length := by
  unfold scanIndex
  split_ifs
  · exact argNumber_length _ _
  · exact le_refl _

theorem scanVerb_length (st : Scan) : (scanVerb st).unread.length ≤ st.unread.length := by
  unfold scanVerb
  split
  · simp
  · rename_i verb s1 heq
    rw [heq]
    split_ifs <;> simp

theorem formatVerb_length (s : List Char) : (formatVerb s).unread.length ≤ s.length := by
  unfold formatVerb
  have h0 := dropWhile_length_le isFlag s
  have h1 := argNumber_length (s.dropWhile isFlag) true
  have h2 := scanWidth_length ⟨(argNumber (s.dropWhile isFlag) true).1,
    (argNumber (s.dropWhile isFlag) true).2.1, (argNumber (s.dropWhile isFlag) true).2.2, []⟩
  have h3 := scanPrecision_length (scanWidth ⟨(argNumber (s.dropWhile isFlag) true).1,
    (argNumber (s.dropWhile isFlag) true).2.1, (argNumber (s.dropWhile isFlag) true).2.2, []⟩)
  have h4 := scanIndex_length (scanPrecision (scanWidth ⟨(argNumber (s.dropWhile isFlag) true).1,
    (argNumber (s.dropWhile isFlag) true).2.1, (argNumber (s.dropWhile isFlag) true).2.2, []⟩))
  have h5 := scanVerb_length (scanIndex (scanPrecision (scanWidth
    ⟨(argNumber (s.dropWhile isFlag) true).1,
    (argNumber (s.dropWhile isFlag) true).2.1, (argNumber (s.dropWhile isFlag) true).2.2, []⟩)))
  exact h5.trans (h4.trans (h3.trans (h2.trans (h1.trans h0))))

/-- More fuel than the length of the format never changes what `doPrintf` writes. -/
theorem doPrintf_fuel (fuel : Nat) (s : List Char) (h : s.length < fuel) :
    doPrintf fuel s = doPrintf (s.length + 1) s := by
  induction fuel using Nat.strong_induction_on generalizing s with
  | _ fuel ih =>
    cases fuel with
    | zero => omega
    | succ n =>
      have hd := dropWhile_length_le (· != '%') s
      simp only [doPrintf]
      split
      · rfl
      · rename_i c afterPercent heq
        rw [heq] at hd
        simp only [List.length_cons] at hd
        have hv := formatVerb_length afterPercent
        split_ifs
        · rfl
        · rw [ih n (Nat.lt_succ_self n) _ (by omega), ih s.length (by omega) _ (by omega)]

/-- A format without a percent sign is written out unchanged. -/
theorem doPrintf_literal (fuel : Nat) (s : List Char) (h : ∀ c ∈ s, c ≠ '%') :
    doPrintf (fuel + 1) s = s := by
  have h1 : s.takeWhile (· != '%') = s := by
    rw [List.takeWhile_eq_self_iff]
    intro c hc
    simpa using h c hc
  have h2 : s.dropWhile (· != '%') = [] := by
    rw [List.dropWhile_eq_nil_iff]
    intro c hc
    simpa using h c hc
  simp only [doPrintf, h2, h1]

/-! ## The request phase -/

/-- With a readable, closable body and writable headers, `AuthZRequest` stores the
snapshot, installs the second copy of the body and runs the plugin loop. -/
theorem AuthZRequest_built (a : Ctx) (r : HttpRequest) (b : ReadCloser)
    (hbody : r.Body = some b) (hread : b.readErr = none) (hclose : b.closeErr = none)
    (hheader : r.Header.writeErr = none) :
    a.AuthZRequest r =
      ⟨(requestLoop (a.newRequest (some b.data) r.Header.wire) a.plugins 0).1,
        { a with authReq := some (a.newRequest (some b.data) r.Header.wire) },
        { r with Body := some (NopCloser b.data) },
        (requestLoop (a.newRequest (some b.data) r.Header.wire) a.plugins 0).2⟩ := by
  simp [Ctx.AuthZRequest, drainBody, ReadCloser.ReadAll, NopCloser, hbody, hread, hclose,
    hheader, Ctx.newRequest]

theorem requestLoop_trace (authReq : Request) (ps : List AuthorizationPlugin) (i k : Nat)
    (plugin : AuthorizationPlugin) (hi : ps[i]? = some plugin)
    (hdeny : (plugin.AuthZRequest authReq).allows = false)
    (hfirst : ∀ j p, j < i → ps[j]? = some p → (p.AuthZRequest authReq).allows = true) :
    (requestLoop authReq ps k).2 =
      ((ps.take (i + 1)).enumFrom k).map (fun jp => requestCall authReq jp.1 jp.2) := by
  induction ps generalizing i k with
  | nil => simp at hi
  | cons p rest ih =>
    cases i with
    | zero =>
      simp only [List.getElem?_cons_zero, Option.some.injEq] at hi
      subst hi
      simp only [requestLoop, requestCall]
      cases hres : p.AuthZRequest authReq with
      | failed err => simp [hres]
      | verdict authRes =>
        simp only [hres, CallResult.allows] at hdeny
        simp [hdeny, hres]
    | succ i =>
      have h0 := hfirst 0 p (Nat.succ_pos i) (by simp)
      simp only [requestLoop, requestCall]
      cases hres : p.AuthZRequest authReq with
      | failed err => simp [hres, CallResult.allows] at h0
      | verdict authRes =>
        simp only [hres, CallResult.allows] at h0
        have hrest := ih i (k + 1) (by simpa using hi)
          (fun j q hj hq => hfirst (j + 1) q (by omega) (by simpa using hq))
        simp [h0, hrest, hres, requestCall, List.enumFrom]

theorem invoked_requestCalls (authReq : Request) (ps : List AuthorizationPlugin) (k : Nat) :
    invoked ((ps.enumFrom k).map (fun jp => requestCall authReq jp.1 jp.2)) =
      List.range' k ps.length := by
  induction ps generalizing k with
  | nil => simp [invoked]
  | cons p rest ih =>
    have := ih (k + 1)
    simp only [invoked, List.filterMap_map] at this
    simp only [invoked, List.filterMap_map, List.enumFrom, List.length_cons, List.range']
    rw [List.filterMap_cons_some (b := k) (by simp [requestCall, Event.pluginPos?]), this]

theorem requestLoop_outcome (authReq : Request) (ps : List AuthorizationPlugin) (k : Nat) :
    ((requestLoop authReq ps k).1 = .ok ↔ ∀ p ∈ ps, (p.AuthZRequest authReq).allows = true) ∧
      ((requestLoop authReq ps k).1 ≠ .ok → ∃ err, (requestLoop authReq ps k).1 = .error err) := by
  induction ps generalizing k with
  | nil => simp [requestLoop]
  | cons p rest ih =>
    simp only [requestLoop, List.forall_mem_cons]
    cases hres : p.AuthZRequest authReq with
    | failed err => simp [CallResult.allows]
    | verdict authRes =>
      cases hallow : authRes.Allow with
      | false => simp [CallResult.allows, hallow]
      | true =>
        have := ih (k + 1)
        simp only [CallResult.allows, hallow, Bool.not_true, Bool.false_eq_true, if_false,
          true_and]
        exact this

/-- The context `sessionCtx` is what `AuthZRequest` leaves on `sampleCtx`, whatever the
plugins answer. -/
theorem sessionCtx_authReq (plugins : List AuthorizationPlugin) :
    ((sampleCtx plugins).AuthZRequest sampleRequest).ctx.authReq =
      (sessionCtx plugins).authReq := by
  rw [AuthZRequest_built (sampleCtx plugins) sampleRequest
    { data := [1, 2, 3], readErr := none, closeErr := none } rfl rfl rfl rfl]
  rfl

/-- Claim C1. When the snapshot is built and position `i` is the first plugin whose
request call does not allow (an error or a deny verdict), `AuthZRequest` makes exactly the
calls of the plugins at positions `0..i` on the snapshot, once each and in list order:
the positions called are `0, 1, ..., i` and nothing after `i` is called. -/
theorem AuthZRequest_short_circuit (a : Ctx) (r : HttpRequest) (b : ReadCloser) (i : Nat)
    (plugin : AuthorizationPlugin)
    (hbody : r.Body = some b) (hread : b.readErr = none) (hclose : b.closeErr = none)
    (hheader : r.Header.writeErr = none)
    (hi : a.plugins[i]? = some plugin)
    (hdeny : (plugin.AuthZRequest (a.newRequest (some b.data) r.Header.wire)).allows = false)
    (hfirst : ∀ j p, j < i → a.plugins[j]? = some p →
      (p.AuthZRequest (a.newRequest (some b.data) r.Header.wire)).allows = true) :
    (a.AuthZRequest r).trace =
        ((a.plugins.take (i + 1)).enum).map
          (fun jp => requestCall (a.newRequest (some b.data) r.Header.wire) jp.1 jp.2) ∧
      invoked (a.AuthZRequest r).trace = List.range (i + 1) := by
  have htrace := requestLoop_trace (a.newRequest (some b.data) r.Header.wire) a.plugins i 0
    plugin hi hdeny hfirst
  have hlen : i < a.plugins.length := by
    rcases List.getElem?_eq_some_iff.mp hi with ⟨h, _⟩
    exact h
  rw [AuthZRequest_built a r b hbody hread hclose hheader]
  refine ⟨htrace, ?_⟩
  simp only [htrace, invoked_requestCalls, List.length_take, List.range_eq_range']
  congr 1
  omega

theorem AuthZRequest_short_circuit_witness :
    invoked ((sampleCtx [allowAll, denyWith "no", allowAll]).AuthZRequest sampleRequest).trace =
      List.range (1 + 1) :=
  (AuthZRequest_short_circuit (sampleCtx [allowAll, denyWith "no", allowAll]) sampleRequest
    { data := [1, 2, 3], readErr := none, closeErr := none } 1 (denyWith "no")
    rfl rfl rfl rfl rfl rfl
    (fun j p hj hp => by
      have hj0 : j = 0 := by omega
      subst hj0
      simp only [sampleCtx, NewCtx, List.getElem?_cons_zero, Option.some.injEq] at hp
      subst hp
      rfl)).2

/-- Claim C2. When the snapshot is built, `AuthZRequest` returns no error exactly when every
plugin of the list returns no call error and an allowing verdict on the snapshot. It
returns no error for the empty list, and it returns an error as soon as a plugin denies,
whatever the message of the verdict is. -/
theorem AuthZRequest_and_semantics (a : Ctx) (r : HttpRequest) (b : ReadCloser)
    (hbody : r.Body = some b) (hread : b.readErr = none) (hclose : b.closeErr = none)
    (hheader : r.Header.writeErr = none) :
    ((a.AuthZRequest r).outcome = .ok ↔
        ∀ p ∈ a.plugins,
          (p.AuthZRequest (a.newRequest (some b.data) r.Header.wire)).allows = true) ∧
      (a.plugins = [] → (a.AuthZRequest r).outcome = .ok) ∧
      (∀ p ∈ a.plugins, ∀ authRes : Response,
        p.AuthZRequest (a.newRequest (some b.data) r.Header.wire) = .verdict authRes →
        authRes.Allow = false → ∃ err, (a.AuthZRequest r).outcome = .error err) := by
  have hloop := requestLoop_outcome (a.newRequest (some b.data) r.Header.wire) a.plugins 0
  rw [AuthZRequest_built a r b hbody hread hclose hheader]
  refine ⟨hloop.1, ?_, ?_⟩
  · intro hnil
    exact hloop.1.mpr (by simp [hnil])
  · intro p hp authRes hres hallow
    apply hloop.2
    intro hok
    have := hloop.1.mp hok p hp
    simp [hres, CallResult.allows, hallow] at this

theorem AuthZRequest_and_semantics_witness :
    ∃ err, ((sampleCtx [allowAll, denyWith ""]).AuthZRequest sampleRequest).outcome =
      .error err :=
  (AuthZRequest_and_semantics (sampleCtx [allowAll, denyWith ""]) sampleRequest
    { data := [1, 2, 3], readErr := none, closeErr := none } rfl rfl rfl rfl).2.2
    (denyWith "") (by simp [sampleCtx, NewCtx])
    { plainAllow with Allow := false, Msg := "" } rfl rfl

/-- A deny message without a percent sign reaches the error text unchanged. -/
theorem Errorf_literal (msg : String) (h : ∀ c ∈ msg.data, c ≠ '%') :
    (Errorf msg).Error = msg := by
  simp only [Errorf, GoError.Error, Sprintf]
  rw [doPrintf_literal _ _ h]

/-- Claim C3, evaluated on the deny message `100%`. In the request phase and in the
response phase the text of the returned error is `100%!(NOVERB)`: `fmt.Errorf` reads the
message as a format, so the message is not carried verbatim. -/
theorem deny_message_read_as_format :
    ((sampleCtx [denyWith "100%"]).AuthZRequest sampleRequest).outcome =
        .error (.formatted "100%!(NOVERB)") ∧
      ((((sampleCtx [denyResponseWith "100%"]).AuthZRequest sampleRequest).ctx).AuthZResponse
          sampleResponse).outcome = .error (.formatted "100%!(NOVERB)") ∧
      (GoError.formatted "100%!(NOVERB)").Error ≠ "100%" := by
  refine ⟨by decide, by decide, by decide⟩

/-! ## The response phase -/

theorem update_eq_replace (running replacement : ByteSlice) :
    (if replacement != none then replacement else running) = replace running replacement := by
  cases replacement <;> simp [replace]

/-- The plugin loop of `AuthZResponse` records plugin calls only. -/
theorem responseLoop_trace_calls (ps : List AuthorizationPlugin) (k : Nat)
    (authReq : Option Request) (st : Running) :
    ∀ ev ∈ (responseLoop ps k authReq st).trace,
      ∃ pos q res, ev = Event.pluginResponse pos q res := by
  induction ps generalizing k authReq st with
  | nil => simp [responseLoop]
  | cons p rest ih =>
    cases authReq with
    | none => simp [responseLoop]
    | some q =>
      simp only [responseLoop]
      split
      · simp
      · rename_i authRes hres
        cases hallow : authRes.Allow with
        | false => simp
        | true =>
          simp only [Bool.not_true, Bool.false_eq_true, if_false]
          intro ev hev
          simp only [List.mem_cons] at hev
          rcases hev with h | h
          · exact ⟨_, _, _, h⟩
          · exact ih _ _ _ ev h

/-- The plugin loop of `AuthZResponse` on a context that holds a request description: it
succeeds exactly when every call it made allowed; when it succeeds, the running values
are the fold of the verdicts over the initial values; and it never panics. -/
theorem responseLoop_fold (ps : List AuthorizationPlugin) (k : Nat) (q : Request)
    (st : Running) :
    ((responseLoop ps k (some q) st).outcome = .ok ↔
        ∀ c ∈ responseCalls (responseLoop ps k (some q) st).trace, c.2.allows = true) ∧
      ((responseLoop ps k (some q) st).outcome = .ok →
        (responseLoop ps k (some q) st).running =
          foldRewrites st (verdicts (responseCalls (responseLoop ps k (some q) st).trace))) ∧
      ((responseLoop ps k (some q) st).outcome ≠ .ok →
        ∃ err, (responseLoop ps k (some q) st).outcome = .error err) := by
  induction ps generalizing k q st with
  | nil => simp [responseLoop, responseCalls, verdicts, foldRewrites]
  | cons p rest ih =>
    simp only [responseLoop]
    split
    · rename_i err hres
      simp [responseCalls, Event.responseCall?, CallResult.allows, hres]
    · rename_i authRes hres
      cases hallow : authRes.Allow with
      | false => simp [responseCalls, Event.responseCall?, CallResult.allows, hallow, hres]
      | true =>
        simp only [Bool.not_true, Bool.false_eq_true, if_false, update_eq_replace]
        have := ih (k + 1) (q.pipe st) (applyRewrite st authRes)
        simp only [applyRewrite, gt_iff_lt] at this
        simp only [responseCalls, List.filterMap_cons, Event.responseCall?, List.forall_mem_cons,
          CallResult.allows, hallow, true_and, verdicts, CallResult.verdict?, foldRewrites,
          List.foldl_cons, applyRewrite, gt_iff_lt, hres] at this ⊢
        exact this

theorem responseLoop_nil (k : Nat) (authReq : Option Request) (st : Running) :
    responseLoop [] k authReq st = ⟨.ok, authReq, st, []⟩ := by
  simp only [responseLoop]

/-- One round of the plugin loop of `AuthZResponse` whose plugin allows: the rest of the
loop runs on the piped description and on the rewritten running values. -/
theorem responseLoop_cons_allow (p : AuthorizationPlugin) (rest : List AuthorizationPlugin)
    (k : Nat) (q : Request) (st : Running) (v : Response)
    (hv : p.AuthZResponse (q.pipe st) = .verdict v) (ha : v.Allow = true) :
    responseLoop (p :: rest) k (some q) st =
      { responseLoop rest (k + 1) (some (q.pipe st)) (applyRewrite st v) with
        trace := Event.pluginResponse k (q.pipe st) (.verdict v) ::
          (responseLoop rest (k + 1) (some (q.pipe st)) (applyRewrite st v)).trace } := by
  simp only [responseLoop, hv, ha, Bool.not_true, Bool.false_eq_true, if_false,
    update_eq_replace, applyRewrite, gt_iff_lt]

/-- A successful plugin loop is followed by the overrides of the running body and
headers that are present, and by one flush. -/
theorem AuthZResponse_success (a : Ctx) (rm : ResponseModifier)
    (hh : rm.headersErr = none)
    (hok : (responseLoop a.plugins 0 a.authReq rm.original).outcome = .ok) :
    a.AuthZResponse rm =
      ⟨.ok, { a with authReq := (responseLoop a.plugins 0 a.authReq rm.original).authReq },
        { rm with
          body := replace rm.body
            (responseLoop a.plugins 0 a.authReq rm.original).running.modifiedBody,
          headers := replace rm.headers
            (responseLoop a.plugins 0 a.authReq rm.original).running.modifiedHeaders,
          flushed := rm.flushed + 1 },
        readEvents ++ (responseLoop a.plugins 0 a.authReq rm.original).trace ++
          overrideEvents (responseLoop a.plugins 0 a.authReq rm.original).running ++
          [.flush]⟩ := by
  simp only [ResponseModifier.original, ResponseModifier.RawBody, ResponseModifier.RawHeaders,
    ResponseModifier.StatusCode] at hok
  simp only [Ctx.AuthZResponse, ResponseModifier.RawHeaders, hh, ResponseModifier.RawBody,
    ResponseModifier.StatusCode, hok, ResponseModifier.original, overrideEvents, readEvents]
  cases (responseLoop a.plugins 0 a.authReq ⟨rm.body, rm.headers, rm.status⟩).running.modifiedBody <;>
    cases (responseLoop a.plugins 0 a.authReq ⟨rm.body, rm.headers, rm.status⟩).running.modifiedHeaders <;>
    simp [replace, ResponseModifier.OverrideBody, ResponseModifier.OverrideHeader,
      ResponseModifier.Flush, hh]

/-- A plugin loop that does not succeed leaves the response modifier untouched. -/
theorem AuthZResponse_failure (a : Ctx) (rm : ResponseModifier)
    (hh : rm.headersErr = none)
    (hne : (responseLoop a.plugins 0 a.authReq rm.original).outcome ≠ .ok) :
    a.AuthZResponse rm =
      ⟨(responseLoop a.plugins 0 a.authReq rm.original).outcome,
        { a with authReq := (responseLoop a.plugins 0 a.authReq rm.original).authReq }, rm,
        readEvents ++ (responseLoop a.plugins 0 a.authReq rm.original).trace⟩ := by
  simp only [ResponseModifier.original, ResponseModifier.RawBody, ResponseModifier.RawHeaders,
    ResponseModifier.StatusCode] at hne
  simp only [Ctx.AuthZResponse, ResponseModifier.RawHeaders, hh, ResponseModifier.RawBody,
    ResponseModifier.StatusCode, ResponseModifier.original, readEvents]

/-- A failing header read ends the response phase after two reads. -/
theorem AuthZResponse_header_error (a : Ctx) (rm : ResponseModifier) (err : GoError)
    (hh : rm.headersErr = some err) :
    a.AuthZResponse rm = ⟨.error err, a, rm, [.rawBody, .rawHeaders]⟩ := by
  simp only [Ctx.AuthZResponse, ResponseModifier.RawHeaders, hh]

theorem responseCalls_of_calls (ps : List AuthorizationPlugin) (k : Nat)
    (authReq : Option Request) (st : Running) (pre post : List Event)
    (hpre : responseCalls pre = []) (hpost : responseCalls post = []) :
    responseCalls (pre ++ (responseLoop ps k authReq st).trace ++ post) =
      responseCalls (responseLoop ps k authReq st).trace := by
  simp only [responseCalls, List.filterMap_append] at hpre hpost ⊢
  simp [hpre, hpost]

theorem responseCalls_overrideEvents (st : Running) : responseCalls (overrideEvents st) = [] := by
  cases hb : st.modifiedBody <;> cases hh : st.modifiedHeaders <;>
    simp [overrideEvents, responseCalls, hb, hh, Event.responseCall?]

theorem responseCalls_readEvents : responseCalls readEvents = [] := by
  simp [responseCalls, readEvents, Event.responseCall?]

/-- The plugin calls of a response phase are those of its plugin loop. -/
theorem responseCalls_AuthZResponse (a : Ctx) (rm : ResponseModifier)
    (hh : rm.headersErr = none) :
    responseCalls (a.AuthZResponse rm).trace =
      responseCalls (responseLoop a.plugins 0 a.authReq rm.original).trace := by
  by_cases hok : (responseLoop a.plugins 0 a.authReq rm.original).outcome = .ok
  · rw [AuthZResponse_success a rm hh hok]
    simp only [List.append_assoc]
    rw [← List.append_assoc]
    refine responseCalls_of_calls _ _ _ _ _ _ responseCalls_readEvents ?_
    have := responseCalls_overrideEvents
      (responseLoop a.plugins 0 a.authReq rm.original).running
    simp only [responseCalls, List.filterMap_append] at this ⊢
    simp [this, Event.responseCall?]
  · rw [AuthZResponse_failure a rm hh hok]
    have := responseCalls_of_calls a.plugins 0 a.authReq rm.original readEvents []
      responseCalls_readEvents rfl
    simpa using this

theorem foldRewrites_body_none (vs : List Response) (st : Running)
    (h : (foldRewrites st vs).modifiedBody = none) : st.modifiedBody = none := by
  induction vs generalizing st with
  | nil => exact h
  | cons v rest ih =>
    have := ih (applyRewrite st v) h
    simp only [applyRewrite, replace] at this
    cases hv : v.ModifiedBody with
    | none => simpa [hv] using this
    | some b => simp [hv] at this

theorem foldRewrites_headers_none (vs : List Response) (st : Running)
    (h : (foldRewrites st vs).modifiedHeaders = none) : st.modifiedHeaders = none := by
  induction vs generalizing st with
  | nil => exact h
  | cons v rest ih =>
    have := ih (applyRewrite st v) h
    simp only [applyRewrite, replace] at this
    cases hv : v.ModifiedHeader with
    | none => simpa [hv] using this
    | some b => simp [hv] at this

theorem heldBody_calls (orig : ByteSlice) (t : List Event)
    (h : ∀ ev ∈ t, ∃ pos q res, ev = Event.pluginResponse pos q res) :
    heldBody orig t = orig := by
  induction t with
  | nil => rfl
  | cons ev rest ih =>
    obtain ⟨pos, q, res, hev⟩ := h ev (List.mem_cons_self _ _)
    subst hev
    simp only [heldBody, List.foldl_cons]
    exact ih (fun e he => h e (List.mem_cons_of_mem _ he))

theorem heldHeaders_calls (orig : ByteSlice) (t : List Event)
    (h : ∀ ev ∈ t, ∃ pos q res, ev = Event.pluginResponse pos q res) :
    heldHeaders orig t = orig := by
  induction t with
  | nil => rfl
  | cons ev rest ih =>
    obtain ⟨pos, q, res, hev⟩ := h ev (List.mem_cons_self _ _)
    subst hev
    simp only [heldHeaders, List.foldl_cons]
    exact ih (fun e he => h e (List.mem_cons_of_mem _ he))

theorem heldStatus_calls (orig : Int) (t : List Event)
    (h : ∀ ev ∈ t, ∃ pos q res, ev = Event.pluginResponse pos q res) :
    heldStatus orig t = orig := by
  induction t with
  | nil => rfl
  | cons ev rest ih =>
    obtain ⟨pos, q, res, hev⟩ := h ev (List.mem_cons_self _ _)
    subst hev
    simp only [heldStatus, List.foldl_cons]
    exact ih (fun e he => h e (List.mem_cons_of_mem _ he))

/-- What the response modifier holds after a successful response phase, read off the
trace: the running body and headers where present, the original ones otherwise, and
the original status. -/
theorem held_after_success (rm : ResponseModifier) (t : List Event) (st : Running)
    (h : ∀ ev ∈ t, ∃ pos q res, ev = Event.pluginResponse pos q res) :
    heldBody rm.body (readEvents ++ t ++ overrideEvents st ++ [.flush]) =
        replace rm.body st.modifiedBody ∧
      heldHeaders rm.headers (readEvents ++ t ++ overrideEvents st ++ [.flush]) =
        replace rm.headers st.modifiedHeaders ∧
      heldStatus rm.status (readEvents ++ t ++ overrideEvents st ++ [.flush]) = rm.status := by
  have hb := heldBody_calls rm.body t h
  have hhd := heldHeaders_calls rm.headers t h
  have hs := heldStatus_calls rm.status t h
  simp only [heldBody, heldHeaders, heldStatus] at hb hhd hs
  refine ⟨?_, ?_, ?_⟩
  · simp only [heldBody, List.foldl_append, readEvents, List.foldl_cons, List.foldl_nil, hb]
    cases hb1 : st.modifiedBody <;> cases hh1 : st.modifiedHeaders <;>
      simp [overrideEvents, replace, hb1, hh1]
  · simp only [heldHeaders, List.foldl_append, readEvents, List.foldl_cons, List.foldl_nil, hhd]
    cases hb1 : st.modifiedBody <;> cases hh1 : st.modifiedHeaders <;>
      simp [overrideEvents, replace, hb1, hh1]
  · simp only [heldStatus, List.foldl_append, readEvents, List.foldl_cons, List.foldl_nil, hs]
    cases hb1 : st.modifiedBody <;> cases hh1 : st.modifiedHeaders <;>
      simp [overrideEvents, replace, hb1, hh1]

/-- The response phase of a context that holds a request description, when every call
it makes allows: it succeeds, and the running values after the loop are the fold of the
verdicts over the values originally read. -/
theorem AuthZResponse_all_allow (a : Ctx) (rm : ResponseModifier) (q : Request)
    (hq : a.authReq = some q) (hh : rm.headersErr = none)
    (hallow : ∀ c ∈ responseCalls (a.AuthZResponse rm).trace, c.2.allows = true) :
    (responseLoop a.plugins 0 a.authReq rm.original).outcome = .ok ∧
      (responseLoop a.plugins 0 a.authReq rm.original).running =
        foldRewrites rm.original (verdicts (responseCalls (a.AuthZResponse rm).trace)) := by
  rw [responseCalls_AuthZResponse a rm hh] at hallow ⊢
  rw [hq] at hallow ⊢
  have hloop := responseLoop_fold a.plugins 0 q rm.original
  have hok := hloop.1.mpr hallow
  exact ⟨hok, hloop.2.1 hok⟩

theorem replace_fold_body (rm : ResponseModifier) (vs : List Response) :
    replace rm.body (foldRewrites rm.original vs).modifiedBody =
      (foldRewrites rm.original vs).modifiedBody := by
  cases h : (foldRewrites rm.original vs).modifiedBody with
  | none => exact foldRewrites_body_none vs rm.original h
  | some b => rfl

theorem replace_fold_headers (rm : ResponseModifier) (vs : List Response) :
    replace rm.headers (foldRewrites rm.original vs).modifiedHeaders =
      (foldRewrites rm.original vs).modifiedHeaders := by
  cases h : (foldRewrites rm.original vs).modifiedHeaders with
  | none => exact foldRewrites_headers_none vs rm.original h
  | some b => rfl

/-- Claim C5, evaluated on the list `[sets status 403, allows]` and a response of status
200. The call succeeds and the fold of the verdicts gives status 403, which differs from
200; yet no status override is called and the response modifier still holds 200. -/
theorem AuthZResponse_status_not_committed :
    ((sessionCtx [rewriteStatus 403, allowAll]).AuthZResponse sampleResponse).outcome = .ok ∧
      (foldRewrites sampleResponse.original (verdicts (responseCalls
        ((sessionCtx [rewriteStatus 403, allowAll]).AuthZResponse
          sampleResponse).trace))).modifiedStatusCode = 403 ∧
      sampleResponse.StatusCode = 200 ∧
      ((sessionCtx [rewriteStatus 403, allowAll]).AuthZResponse sampleResponse).rm.StatusCode =
        200 ∧
      heldStatus sampleResponse.StatusCode
        ((sessionCtx [rewriteStatus 403, allowAll]).AuthZResponse sampleResponse).trace = 200 ∧
      (((sessionCtx [rewriteStatus 403, allowAll]).AuthZResponse sampleResponse).trace.filter
        Event.isOverride) = [.overrideBody (some [7, 8]), .overrideHeader (some [9])] := by
  refine ⟨by decide, by decide, by decide, by decide, by decide, by decide⟩

/-- In the plugin loop of `AuthZResponse`, the call number `n` is passed the fold of the
verdicts of the calls before it over the initial running values. -/
theorem responseLoop_pipe (ps : List AuthorizationPlugin) (k : Nat) (q : Request)
    (st : Running) (n : Nat) (c : Request × CallResult)
    (hc : (responseCalls (responseLoop ps k (some q) st).trace)[n]? = some c) :
    c.1.responseFacts =
      foldRewrites st (verdicts ((responseCalls (responseLoop ps k (some q) st).trace).take n)) := by
  induction ps generalizing k q st n with
  | nil => simp [responseLoop, responseCalls] at hc
  | cons p rest ih =>
    have hsingle : ∀ res, (responseCalls [Event.pluginResponse k (q.pipe st) res])[n]? = some c →
        c.1.responseFacts = foldRewrites st (verdicts
          ((responseCalls [Event.pluginResponse k (q.pipe st) res]).take n)) := by
      intro res h
      cases n with
      | zero =>
        simp only [responseCalls, List.filterMap_cons, Event.responseCall?, List.filterMap_nil,
          List.getElem?_cons_zero, Option.some.injEq] at h
        subst h
        rfl
      | succ n => simp [responseCalls, Event.responseCall?] at h
    cases hres : p.AuthZResponse (q.pipe st) with
    | failed err =>
      have hl : (responseLoop (p :: rest) k (some q) st).trace =
          [Event.pluginResponse k (q.pipe st) (.failed err)] := by
        simp [responseLoop, hres]
      rw [hl] at hc ⊢
      exact hsingle _ hc
    | verdict v =>
      cases hallow : v.Allow with
      | false =>
        have hl : (responseLoop (p :: rest) k (some q) st).trace =
            [Event.pluginResponse k (q.pipe st) (.verdict v)] := by
          simp [responseLoop, hres, hallow]
        rw [hl] at hc ⊢
        exact hsingle _ hc
      | true =>
        rw [responseLoop_cons_allow p rest k q st v hres hallow] at hc ⊢
        simp only [responseCalls, List.filterMap_cons, Event.responseCall?] at hc ⊢
        cases n with
        | zero =>
          simp only [List.getElem?_cons_zero, Option.some.injEq] at hc
          subst hc
          rfl
        | succ n =>
          simp only [List.getElem?_cons_succ] at hc
          have := ih (k + 1) (q.pipe st) (applyRewrite st v) n hc
          simp only [responseCalls] at this
          simp only [List.take_succ_cons, verdicts, List.filterMap_cons, CallResult.verdict?,
            foldRewrites, List.foldl_cons]
          exact this

/-- The plugin loop of `AuthZResponse` calls the plugins in list order, one call each. -/
theorem responseLoop_invoked (ps : List AuthorizationPlugin) (k : Nat)
    (authReq : Option Request) (st : Running) :
    invoked (responseLoop ps k authReq st).trace =
      List.range' k (responseCalls (responseLoop ps k authReq st).trace).length := by
  induction ps generalizing k authReq st with
  | nil => simp [responseLoop, invoked, responseCalls]
  | cons p rest ih =>
    cases authReq with
    | none => simp [responseLoop, invoked, responseCalls]
    | some q =>
      cases hres : p.AuthZResponse (q.pipe st) with
      | failed err =>
        simp [responseLoop, hres, invoked, responseCalls, Event.pluginPos?,
          Event.responseCall?]
      | verdict v =>
        cases hallow : v.Allow with
        | false =>
          simp [responseLoop, hres, hallow, invoked, responseCalls, Event.pluginPos?,
            Event.responseCall?]
        | true =>
          rw [responseLoop_cons_allow p rest k q st v hres hallow]
          have := ih (k + 1) (some (q.pipe st)) (applyRewrite st v)
          simp only [invoked, responseCalls] at this
          simp only [invoked, responseCalls, List.filterMap_cons, Event.pluginPos?,
            Event.responseCall?, List.length_cons, List.range'_succ, this]

theorem invoked_readEvents : invoked readEvents = [] := by
  simp [invoked, readEvents, Event.pluginPos?]

theorem invoked_overrideEvents (st : Running) : invoked (overrideEvents st) = [] := by
  cases hb : st.modifiedBody <;> cases hh : st.modifiedHeaders <;>
    simp [overrideEvents, invoked, hb, hh, Event.pluginPos?]

/-- The plugins called by a response phase are those called by its plugin loop. -/
theorem invoked_AuthZResponse (a : Ctx) (rm : ResponseModifier) (hh : rm.headersErr = none) :
    invoked (a.AuthZResponse rm).trace =
      invoked (responseLoop a.plugins 0 a.authReq rm.original).trace := by
  have h1 := invoked_readEvents
  have h2 := invoked_overrideEvents (responseLoop a.plugins 0 a.authReq rm.original).running
  simp only [invoked] at h1 h2
  by_cases hok : (responseLoop a.plugins 0 a.authReq rm.original).outcome = .ok
  · rw [AuthZResponse_success a rm hh hok]
    simp [invoked, List.filterMap_append, h1, h2, Event.pluginPos?]
  · rw [AuthZResponse_failure a rm hh hok]
    simp [invoked, List.filterMap_append, h1]

/-- Claim C6. In every run of `AuthZResponse`, the plugin call number `n` (counting from
zero) is the call of the plugin at position `n`, and the request description it is passed
carries, as response body, headers and status, the fold of the rewrites of the verdicts
of the calls before it over the values originally read from the response modifier; the
first call is passed exactly the values originally read. -/
theorem AuthZResponse_pipes (a : Ctx) (rm : ResponseModifier) (n : Nat)
    (c : Request × CallResult)
    (hc : (responseCalls (a.AuthZResponse rm).trace)[n]? = some c) :
    c.1.responseFacts =
        foldRewrites rm.original
          (verdicts ((responseCalls (a.AuthZResponse rm).trace).take n)) ∧
      (n = 0 → c.1.ResponseBody = rm.RawBody ∧ c.1.ResponseHeaders = rm.RawHeaders.1 ∧
        c.1.ResponseStatusCode = rm.StatusCode) ∧
      (invoked (a.AuthZResponse rm).trace)[n]? = some n := by
  cases hh : rm.headersErr with
  | some err =>
    rw [AuthZResponse_header_error a rm err hh] at hc
    simp [responseCalls, Event.responseCall?] at hc
  | none =>
    rw [responseCalls_AuthZResponse a rm hh] at hc ⊢
    rw [invoked_AuthZResponse a rm hh, responseLoop_invoked]
    have hn : n < (responseCalls (responseLoop a.plugins 0 a.authReq rm.original).trace).length := by
      rcases List.getElem?_eq_some_iff.mp hc with ⟨h, _⟩
      exact h
    cases hq : a.authReq with
    | none =>
      rw [hq] at hc
      cases hps : a.plugins with
      | nil => simp [hps, responseLoop, responseCalls] at hc
      | cons p rest => simp [hps, responseLoop, responseCalls] at hc
    | some q =>
      rw [hq] at hc hn
      have hpipe := responseLoop_pipe a.plugins 0 q rm.original n c hc
      refine ⟨hpipe, ?_, ?_⟩
      · intro h0
        subst h0
        simp only [List.take_zero, verdicts, List.filterMap_nil, foldRewrites, List.foldl_nil] at hpipe
        have hb := congrArg Running.modifiedBody hpipe
        have hhd := congrArg Running.modifiedHeaders hpipe
        have hs := congrArg Running.modifiedStatusCode hpipe
        exact ⟨hb, hhd, hs⟩
      · rw [List.getElem?_range' _ _ hn]
        simp

theorem AuthZResponse_pipes_witness :
    (⟨sampleSnapshot.pipe ⟨some [7, 8], some [9], 403⟩, .verdict plainAllow⟩ :
        Request × CallResult).1.responseFacts =
      foldRewrites sampleResponse.original (verdicts ((responseCalls
        ((sessionCtx [rewriteStatus 403, allowAll]).AuthZResponse sampleResponse).trace).take 1)) :=
  (AuthZResponse_pipes (sessionCtx [rewriteStatus 403, allowAll]) sampleResponse 1
    ⟨sampleSnapshot.pipe ⟨some [7, 8], some [9], 403⟩, .verdict plainAllow⟩ (by decide)).1

/-- Claim C7 fails on the list `[allowAll]` and a response whose body and headers are
present: the only plugin allows and supplies no replacement, and `OverrideBody` and
`OverrideHeader` are called all the same, with the values originally read. -/
theorem AuthZResponse_overrides_without_rewrite :
    (∀ c ∈ responseCalls ((sessionCtx [allowAll]).AuthZResponse sampleResponse).trace,
      c.2 = .verdict plainAllow) ∧
      ¬ (∀ ev ∈ ((sessionCtx [allowAll]).AuthZResponse sampleResponse).trace,
        ev.isOverride = false) ∧
      ((sessionCtx [allowAll]).AuthZResponse sampleResponse).trace.filter Event.isOverride =
        [.overrideBody (some [7, 8]), .overrideHeader (some [9])] := by
  refine ⟨by decide, by decide, by decide⟩

theorem foldRewrites_plain (vs : List Response) (st : Running) (h : ∀ v ∈ vs, v.plain) :
    foldRewrites st vs = st := by
  induction vs generalizing st with
  | nil => rfl
  | cons v rest ih =>
    obtain ⟨_, hb, hhd, hs⟩ := h v (List.mem_cons_self _ _)
    have hstep : applyRewrite st v = st := by
      simp [applyRewrite, replace, hb, hhd, not_lt.mpr hs]
    simp only [foldRewrites, List.foldl_cons, hstep]
    exact ih st (fun w hw => h w (List.mem_cons_of_mem _ hw))

theorem filter_isOverride_calls (t : List Event)
    (h : ∀ ev ∈ t, ∃ pos q res, ev = Event.pluginResponse pos q res) :
    t.filter Event.isOverride = [] := by
  rw [List.filter_eq_nil_iff]
  intro ev hev
  obtain ⟨pos, q, res, rfl⟩ := h ev hev
  simp [Event.isOverride]

theorem filter_isOverride_overrideEvents (st : Running) :
    (overrideEvents st).filter Event.isOverride = overrideEvents st := by
  cases hb : st.modifiedBody <;> cases hh : st.modifiedHeaders <;>
    simp [overrideEvents, hb, hh, Event.isOverride]

/-- Claim C7, amended. On a context that holds a request description, with headers that
are read without error, when every plugin call allows and supplies no replacement (the
empty list included): the call succeeds; the overrides called are `OverrideBody` with
the body originally read, if that body is present, then `OverrideHeader` with the headers
originally read, if they are present, and no status override; so no override at all is
called when the original body and headers are both absent, and the response modifier
holds the original body, headers and status afterwards. -/
theorem AuthZResponse_without_rewrite (a : Ctx) (rm : ResponseModifier) (q : Request)
    (hq : a.authReq = some q) (hh : rm.headersErr = none)
    (hplain : ∀ c ∈ responseCalls (a.AuthZResponse rm).trace,
      ∃ v, c.2 = .verdict v ∧ v.plain) :
    (a.AuthZResponse rm).outcome = .ok ∧
      (a.AuthZResponse rm).trace.filter Event.isOverride = overrideEvents rm.original ∧
      (rm.RawBody = none → rm.RawHeaders.1 = none →
        (a.AuthZResponse rm).trace.filter Event.isOverride = []) ∧
      (a.AuthZResponse rm).rm.body = rm.body ∧
      (a.AuthZResponse rm).rm.headers = rm.headers ∧
      (a.AuthZResponse rm).rm.status = rm.status := by
  have hallow : ∀ c ∈ responseCalls (a.AuthZResponse rm).trace, c.2.allows = true := by
    intro c hc
    obtain ⟨v, hv, hp, _⟩ := hplain c hc
    simp [hv, CallResult.allows, hp]
  have hvs : ∀ v ∈ verdicts (responseCalls (a.AuthZResponse rm).trace), v.plain := by
    intro v hv
    simp only [verdicts, List.mem_filterMap] at hv
    obtain ⟨c, hc, hcv⟩ := hv
    obtain ⟨w, hw, hp⟩ := hplain c hc
    simp only [hw, CallResult.verdict?, Option.some.injEq] at hcv
    exact hcv ▸ hp
  obtain ⟨hok, hrun⟩ := AuthZResponse_all_allow a rm q hq hh hallow
  rw [foldRewrites_plain _ _ hvs] at hrun
  have hfilter : (a.AuthZResponse rm).trace.filter Event.isOverride =
      overrideEvents rm.original := by
    rw [AuthZResponse_success a rm hh hok, hrun]
    simp only [List.filter_append, filter_isOverride_calls _ (responseLoop_trace_calls _ _ _ _),
      filter_isOverride_overrideEvents]
    simp [readEvents, Event.isOverride]
  refine ⟨?_, hfilter, ?_, ?_, ?_, ?_⟩
  · rw [AuthZResponse_success a rm hh hok]
  · intro hb hhd
    rw [hfilter]
    simp only [ResponseModifier.RawBody, ResponseModifier.RawHeaders] at hb hhd
    simp [overrideEvents, ResponseModifier.original, ResponseModifier.RawBody,
      ResponseModifier.RawHeaders, hb, hhd]
  · rw [AuthZResponse_success a rm hh hok, hrun]
    cases hb : rm.body <;>
      simp [ResponseModifier.original, ResponseModifier.RawBody, replace, hb]
  · rw [AuthZResponse_success a rm hh hok, hrun]
    cases hb : rm.headers <;>
      simp [ResponseModifier.original, ResponseModifier.RawHeaders, replace, hb]
  · rw [AuthZResponse_success a rm hh hok]

theorem AuthZResponse_without_rewrite_witness :
    ((sessionCtx [allowAll, allowAll]).AuthZResponse sampleResponse).trace.filter
        Event.isOverride = overrideEvents sampleResponse.original ∧
      ((sessionCtx [allowAll, allowAll]).AuthZResponse sampleResponse).rm.body =
        sampleResponse.body :=
  ⟨(AuthZResponse_without_rewrite (sessionCtx [allowAll, allowAll]) sampleResponse
      sampleSnapshot rfl rfl
      (by
        intro c hc
        have hall : ∀ d ∈ responseCalls
            ((sessionCtx [allowAll, allowAll]).AuthZResponse sampleResponse).trace,
            d.2 = .verdict plainAllow := by decide
        exact ⟨plainAllow, hall c hc, rfl, rfl, rfl, by decide⟩)).2.1,
    (AuthZResponse_without_rewrite (sessionCtx [allowAll, allowAll]) sampleResponse
      sampleSnapshot rfl rfl
      (by
        intro c hc
        have hall : ∀ d ∈ responseCalls
            ((sessionCtx [allowAll, allowAll]).AuthZResponse sampleResponse).trace,
            d.2 = .verdict plainAllow := by decide
        exact ⟨plainAllow, hall c hc, rfl, rfl, rfl, by decide⟩)).2.2.2.1⟩

/-- A response phase that returns no error read its headers without error and ran its
plugin loop to a successful end. -/
theorem AuthZResponse_ok_inv (a : Ctx) (rm : ResponseModifier)
    (hok : (a.AuthZResponse rm).outcome = .ok) :
    rm.headersErr = none ∧ (responseLoop a.plugins 0 a.authReq rm.original).outcome = .ok := by
  cases hh : rm.headersErr with
  | some err =>
    rw [AuthZResponse_header_error a rm err hh] at hok
    exact absurd hok (by simp)
  | none =>
    refine ⟨rfl, ?_⟩
    by_contra hne
    rw [AuthZResponse_failure a rm hh hne] at hok
    exact hne hok

theorem count_calls (t : List Event) (ev : Event) (hev : ev.isPluginCall = false)
    (h : ∀ e ∈ t, ∃ pos q res, e = Event.pluginResponse pos q res) :
    t.count ev = 0 := by
  rw [List.count_eq_zero]
  intro hmem
  obtain ⟨pos, q, res, rfl⟩ := h ev hmem
  simp [Event.isPluginCall] at hev

theorem countP_calls (t : List Event) (f : Event → Bool)
    (hf : ∀ pos q res, f (Event.pluginResponse pos q res) = false)
    (h : ∀ e ∈ t, ∃ pos q res, e = Event.pluginResponse pos q res) :
    t.countP f = 0 := by
  rw [List.countP_eq_zero]
  intro e hmem
  obtain ⟨pos, q, res, rfl⟩ := h e hmem
  simp [hf]

/-- Claim C8. On every run of `AuthZResponse` that returns no error, the trace is: the
three reads `RawBody`, `RawHeaders`, `StatusCode`, then plugin calls only, then at most
one `OverrideBody` and at most one `OverrideHeader`, then `Flush`. So `Flush` is called
exactly once, after every plugin call and every override, each reader is called exactly
once and before the first plugin call, and each override at most once. -/
theorem AuthZResponse_call_order (a : Ctx) (rm : ResponseModifier)
    (hok : (a.AuthZResponse rm).outcome = .ok) :
    (∃ calls st, (a.AuthZResponse rm).trace =
        [.rawBody, .rawHeaders, .statusCode] ++ calls ++ overrideEvents st ++ [.flush] ∧
        ∀ ev ∈ calls, ev.isPluginCall = true) ∧
      (a.AuthZResponse rm).trace.count .flush = 1 ∧
      (a.AuthZResponse rm).rm.flushed = rm.flushed + 1 ∧
      (a.AuthZResponse rm).trace.count .rawBody = 1 ∧
      (a.AuthZResponse rm).trace.count .rawHeaders = 1 ∧
      (a.AuthZResponse rm).trace.count .statusCode = 1 ∧
      (a.AuthZResponse rm).trace.countP Event.isOverrideBody ≤ 1 ∧
      (a.AuthZResponse rm).trace.countP Event.isOverrideHeader ≤ 1 := by
  obtain ⟨hh, hloop⟩ := AuthZResponse_ok_inv a rm hok
  have hcalls := responseLoop_trace_calls a.plugins 0 a.authReq rm.original
  have hc := fun ev hev => count_calls _ ev hev hcalls
  have hp := fun f hf => countP_calls _ f hf hcalls
  rw [AuthZResponse_success a rm hh hloop]
  refine ⟨⟨_, _, rfl, ?_⟩, ?_, rfl, ?_, ?_, ?_, ?_, ?_⟩
  · intro ev hev
    obtain ⟨pos, q, res, rfl⟩ := hcalls ev hev
    rfl
  all_goals
    simp only [List.count_append, List.countP_append, hc .flush rfl, hc .rawBody rfl,
      hc .rawHeaders rfl, hc .statusCode rfl, overrideEvents,
      hp Event.isOverrideBody (fun _ _ _ => rfl), hp Event.isOverrideHeader (fun _ _ _ => rfl)]
    cases (responseLoop a.plugins 0 a.authReq rm.original).running.modifiedBody <;>
      cases (responseLoop a.plugins 0 a.authReq rm.original).running.modifiedHeaders <;>
      simp [readEvents, Event.isOverrideBody, Event.isOverrideHeader]

theorem AuthZResponse_call_order_witness :
    ((sessionCtx [allowAll, rewriteBody [82]]).AuthZResponse sampleResponse).trace.count
        .flush = 1 ∧
      ((sessionCtx [allowAll, rewriteBody [82]]).AuthZResponse sampleResponse).rm.flushed =
        sampleResponse.flushed + 1 :=
  ⟨(AuthZResponse_call_order (sessionCtx [allowAll, rewriteBody [82]]) sampleResponse
      (by decide)).2.1,
    (AuthZResponse_call_order (sessionCtx [allowAll, rewriteBody [82]]) sampleResponse
      (by decide)).2.2.1⟩

/-- Claim C9. On every run of `AuthZResponse` that returns an error (a failing header
read, a failing plugin call or a deny verdict, at any position), no override and no
flush is called on the response modifier, which holds afterwards exactly the body,
headers and status it held before. -/
theorem AuthZResponse_error_commits_nothing (a : Ctx) (rm : ResponseModifier) (err : GoError)
    (herr : (a.AuthZResponse rm).outcome = .error err) :
    (a.AuthZResponse rm).trace.filter Event.isWrite = [] ∧
      (a.AuthZResponse rm).rm = rm ∧
      heldBody rm.RawBody (a.AuthZResponse rm).trace = rm.RawBody ∧
      heldHeaders rm.RawHeaders.1 (a.AuthZResponse rm).trace = rm.RawHeaders.1 ∧
      heldStatus rm.StatusCode (a.AuthZResponse rm).trace = rm.StatusCode := by
  cases hh : rm.headersErr with
  | some e =>
    rw [AuthZResponse_header_error a rm e hh]
    refine ⟨by simp [Event.isWrite, Event.isOverride], rfl, rfl, rfl, rfl⟩
  | none =>
    have hne : (responseLoop a.plugins 0 a.authReq rm.original).outcome ≠ .ok := by
      intro hok
      rw [AuthZResponse_success a rm hh hok] at herr
      exact absurd herr (by simp)
    have hcalls := responseLoop_trace_calls a.plugins 0 a.authReq rm.original
    rw [AuthZResponse_failure a rm hh hne]
    refine ⟨?_, rfl, ?_, ?_, ?_⟩
    · rw [List.filter_eq_nil_iff]
      intro ev hev
      simp only [List.mem_append] at hev
      rcases hev with h | h
      · simp only [readEvents, List.mem_cons, List.mem_singleton, List.not_mem_nil,
          or_false] at h
        rcases h with rfl | rfl | rfl <;> simp [Event.isWrite, Event.isOverride]
      · obtain ⟨pos, q, res, rfl⟩ := hcalls ev h
        simp [Event.isWrite, Event.isOverride]
    · have := heldBody_calls rm.body _ hcalls
      simp only [heldBody] at this
      simp only [heldBody, List.foldl_append, readEvents, List.foldl_cons, List.foldl_nil,
        ResponseModifier.RawBody, this]
    · have := heldHeaders_calls rm.headers _ hcalls
      simp only [heldHeaders] at this
      simp only [heldHeaders, List.foldl_append, readEvents, List.foldl_cons, List.foldl_nil,
        ResponseModifier.RawHeaders, this]
    · have := heldStatus_calls rm.status _ hcalls
      simp only [heldStatus] at this
      simp only [heldStatus, List.foldl_append, readEvents, List.foldl_cons, List.foldl_nil,
        ResponseModifier.StatusCode, this]

theorem AuthZResponse_error_commits_nothing_witness :
    ((sessionCtx [rewriteBody [82], denyResponseWith "no"]).AuthZResponse
        sampleResponse).trace.filter Event.isWrite = [] ∧
      ((sessionCtx [rewriteBody [82], denyResponseWith "no"]).AuthZResponse
        sampleResponse).rm = sampleResponse :=
  ⟨(AuthZResponse_error_commits_nothing (sessionCtx [rewriteBody [82], denyResponseWith "no"])
      sampleResponse (.formatted "no") (by decide)).1,
    (AuthZResponse_error_commits_nothing (sessionCtx [rewriteBody [82], denyResponseWith "no"])
      sampleResponse (.formatted "no") (by decide)).2.1⟩

/-! ## One round of the pipe -/

/-- In any run of `AuthZResponse`, the plugin call number `n` is passed the fold of the
verdicts of the earlier calls over the values originally read. -/
theorem calls_facts (a : Ctx) (rm : ResponseModifier) (n : Nat) (c : Request × CallResult)
    (hc : (responseCalls (a.AuthZResponse rm).trace)[n]? = some c) :
    c.1.responseFacts =
      foldRewrites rm.original
        (verdicts ((responseCalls (a.AuthZResponse rm).trace).take n)) := by
  cases hh : rm.headersErr with
  | some err =>
    rw [AuthZResponse_header_error a rm err hh] at hc
    simp [responseCalls, Event.responseCall?] at hc
  | none =>
    rw [responseCalls_AuthZResponse a rm hh] at hc ⊢
    cases hq : a.authReq with
    | none =>
      rw [hq] at hc
      cases hps : a.plugins with
      | nil => simp [hps, responseLoop, responseCalls] at hc
      | cons p rest => simp [hps, responseLoop, responseCalls] at hc
    | some q =>
      rw [hq] at hc
      exact responseLoop_pipe a.plugins 0 q rm.original n c hc

theorem verdicts_append (xs ys : List (Request × CallResult)) :
    verdicts (xs ++ ys) = verdicts xs ++ verdicts ys := by
  simp [verdicts, List.filterMap_append]

theorem foldRewrites_append (st : Running) (xs ys : List Response) :
    foldRewrites st (xs ++ ys) = foldRewrites (foldRewrites st xs) ys := by
  simp [foldRewrites, List.foldl_append]

theorem take_succ_of_getElem? (calls : List (Request × CallResult)) (n : Nat)
    (c : Request × CallResult) (hc : calls[n]? = some c) :
    calls.take (n + 1) = calls.take n ++ [c] := by
  rw [List.take_succ, hc]
  rfl

/-- The running values after the call number `n` returned the verdict `v`: the rewrite of
`v` applied to the values that call was passed. -/
theorem facts_after_call (a : Ctx) (rm : ResponseModifier) (n : Nat)
    (c : Request × CallResult) (v : Response)
    (hc : (responseCalls (a.AuthZResponse rm).trace)[n]? = some c)
    (hv : c.2 = .verdict v) :
    foldRewrites rm.original
        (verdicts ((responseCalls (a.AuthZResponse rm).trace).take (n + 1))) =
      applyRewrite c.1.responseFacts v := by
  rw [take_succ_of_getElem? _ n c hc, verdicts_append, foldRewrites_append,
    ← calls_facts a rm n c hc]
  simp [verdicts, hv, CallResult.verdict?, foldRewrites]

/-- The pipe, one round at a time: the call after a call that returned the verdict `v` is
passed the rewrite of `v` applied to what that call was passed. -/
theorem calls_step (a : Ctx) (rm : ResponseModifier) (n : Nat)
    (c next : Request × CallResult) (v : Response)
    (hc : (responseCalls (a.AuthZResponse rm).trace)[n]? = some c)
    (hv : c.2 = .verdict v)
    (hnext : (responseCalls (a.AuthZResponse rm).trace)[n + 1]? = some next) :
    next.1.responseFacts = applyRewrite c.1.responseFacts v := by
  rw [calls_facts a rm (n + 1) next hnext, facts_after_call a rm n c v hc hv]

theorem responseLoop_none (ps : List AuthorizationPlugin) (k : Nat) (st : Running) :
    (responseLoop ps k none st).trace = [] ∧ (responseLoop ps k none st).running = st := by
  cases ps <;> simp [responseLoop]

/-- After a run of `AuthZResponse` that returns no error, the running values of the
plugin loop are the fold of the verdicts of its calls over the values originally read. -/
theorem AuthZResponse_ok_running (a : Ctx) (rm : ResponseModifier)
    (hok : (a.AuthZResponse rm).outcome = .ok) :
    (responseLoop a.plugins 0 a.authReq rm.original).running =
      foldRewrites rm.original (verdicts (responseCalls (a.AuthZResponse rm).trace)) := by
  obtain ⟨hh, hloop⟩ := AuthZResponse_ok_inv a rm hok
  rw [responseCalls_AuthZResponse a rm hh]
  cases hq : a.authReq with
  | none =>
    obtain ⟨ht, hr⟩ := responseLoop_none a.plugins 0 rm.original
    rw [ht, hr]
    rfl
  | some q =>
    rw [hq] at hloop
    exact (responseLoop_fold a.plugins 0 q rm.original).2.1 hloop

theorem foldRewrites_body_keep (vs : List Response) (st : Running)
    (h : ∀ v ∈ vs, v.ModifiedBody = none) :
    (foldRewrites st vs).modifiedBody = st.modifiedBody := by
  induction vs generalizing st with
  | nil => rfl
  | cons v rest ih =>
    simp only [foldRewrites, List.foldl_cons]
    have := ih (applyRewrite st v) (fun w hw => h w (List.mem_cons_of_mem _ hw))
    simp only [foldRewrites] at this
    rw [this]
    simp [applyRewrite, replace, h v (List.mem_cons_self _ _)]

theorem foldRewrites_headers_keep (vs : List Response) (st : Running)
    (h : ∀ v ∈ vs, v.ModifiedHeader = none) :
    (foldRewrites st vs).modifiedHeaders = st.modifiedHeaders := by
  induction vs generalizing st with
  | nil => rfl
  | cons v rest ih =>
    simp only [foldRewrites, List.foldl_cons]
    have := ih (applyRewrite st v) (fun w hw => h w (List.mem_cons_of_mem _ hw))
    simp only [foldRewrites] at this
    rw [this]
    simp [applyRewrite, replace, h v (List.mem_cons_self _ _)]

/-- The running values at the end of a successful run, split at the call number `n`: the
fold of the later verdicts over the rewrite of the verdict `v` of that call. -/
theorem final_running_split (a : Ctx) (rm : ResponseModifier) (n : Nat)
    (c : Request × CallResult) (v : Response)
    (hok : (a.AuthZResponse rm).outcome = .ok)
    (hc : (responseCalls (a.AuthZResponse rm).trace)[n]? = some c)
    (hv : c.2 = .verdict v) :
    (responseLoop a.plugins 0 a.authReq rm.original).running =
      foldRewrites (applyRewrite c.1.responseFacts v)
        (verdicts ((responseCalls (a.AuthZResponse rm).trace).drop (n + 1))) := by
  rw [AuthZResponse_ok_running a rm hok, ← facts_after_call a rm n c v hc hv,
    ← foldRewrites_append, ← verdicts_append, List.take_append_drop]

theorem mem_overrideEvents_body (st : Running) (b : List Nat)
    (h : st.modifiedBody = some b) : Event.overrideBody (some b) ∈ overrideEvents st := by
  simp [overrideEvents, h]

theorem mem_overrideEvents_headers (st : Running) (b : List Nat)
    (h : st.modifiedHeaders = some b) : Event.overrideHeader (some b) ∈ overrideEvents st := by
  cases hb : st.modifiedBody <;> simp [overrideEvents, h, hb]

/-- Claim C11. Let the call number `n` of a response phase return a verdict `v`. If
`ModifiedBody` of `v` is present and empty, the next call is passed the empty body as
`ResponseBody`, and when the run succeeds and no later verdict supplies a body, the empty
body is passed to `OverrideBody` and held by the response modifier. If `ModifiedBody` is
absent, the next call is passed the body this call was passed. The same holds for
`ModifiedHeader`, `ResponseHeaders` and `OverrideHeader`. -/
theorem AuthZResponse_empty_replacement (a : Ctx) (rm : ResponseModifier) (n : Nat)
    (c : Request × CallResult) (v : Response)
    (hc : (responseCalls (a.AuthZResponse rm).trace)[n]? = some c)
    (hv : c.2 = .verdict v) :
    (v.ModifiedBody = some [] →
        (∀ next, (responseCalls (a.AuthZResponse rm).trace)[n + 1]? = some next →
          next.1.ResponseBody = some []) ∧
        ((a.AuthZResponse rm).outcome = .ok →
          (∀ w ∈ verdicts ((responseCalls (a.AuthZResponse rm).trace).drop (n + 1)),
            w.ModifiedBody = none) →
          Event.overrideBody (some []) ∈ (a.AuthZResponse rm).trace ∧
            (a.AuthZResponse rm).rm.body = some [])) ∧
      (v.ModifiedBody = none →
        ∀ next, (responseCalls (a.AuthZResponse rm).trace)[n + 1]? = some next →
          next.1.ResponseBody = c.1.ResponseBody) ∧
      (v.ModifiedHeader = some [] →
        (∀ next, (responseCalls (a.AuthZResponse rm).trace)[n + 1]? = some next →
          next.1.ResponseHeaders = some []) ∧
        ((a.AuthZResponse rm).outcome = .ok →
          (∀ w ∈ verdicts ((responseCalls (a.AuthZResponse rm).trace).drop (n + 1)),
            w.ModifiedHeader = none) →
          Event.overrideHeader (some []) ∈ (a.AuthZResponse rm).trace ∧
            (a.AuthZResponse rm).rm.headers = some [])) ∧
      (v.ModifiedHeader = none →
        ∀ next, (responseCalls (a.AuthZResponse rm).trace)[n + 1]? = some next →
          next.1.ResponseHeaders = c.1.ResponseHeaders) := by
  have hstep := fun next hnext => calls_step a rm n c next v hc hv hnext
  refine ⟨fun hb => ⟨?_, ?_⟩, ?_, fun hb => ⟨?_, ?_⟩, ?_⟩
  · intro next hnext
    have := congrArg Running.modifiedBody (hstep next hnext)
    simpa [Request.responseFacts, applyRewrite, replace, hb] using this
  · intro hok hlater
    obtain ⟨hh, hloop⟩ := AuthZResponse_ok_inv a rm hok
    have hrun := congrArg Running.modifiedBody (final_running_split a rm n c v hok hc hv)
    rw [foldRewrites_body_keep _ _ hlater] at hrun
    simp only [applyRewrite, replace, hb] at hrun
    have hmem := mem_overrideEvents_body _ [] hrun
    rw [AuthZResponse_success a rm hh hloop]
    refine ⟨?_, ?_⟩
    · simp only [List.mem_append]
      exact Or.inl (Or.inr hmem)
    · simp only [hrun, replace]
  · intro hb next hnext
    have := congrArg Running.modifiedBody (hstep next hnext)
    simpa [Request.responseFacts, applyRewrite, replace, hb] using this
  · intro next hnext
    have := congrArg Running.modifiedHeaders (hstep next hnext)
    simpa [Request.responseFacts, applyRewrite, replace, hb] using this
  · intro hok hlater
    obtain ⟨hh, hloop⟩ := AuthZResponse_ok_inv a rm hok
    have hrun := congrArg Running.modifiedHeaders (final_running_split a rm n c v hok hc hv)
    rw [foldRewrites_headers_keep _ _ hlater] at hrun
    simp only [applyRewrite, replace, hb] at hrun
    have hmem := mem_overrideEvents_headers _ [] hrun
    rw [AuthZResponse_success a rm hh hloop]
    refine ⟨?_, ?_⟩
    · simp only [List.mem_append]
      exact Or.inl (Or.inr hmem)
    · simp only [hrun, replace]
  · intro hb next hnext
    have := congrArg Running.modifiedHeaders (hstep next hnext)
    simpa [Request.responseFacts, applyRewrite, replace, hb] using this

theorem AuthZResponse_empty_replacement_witness :
    (⟨sampleSnapshot.pipe ⟨some [], some [9], 200⟩, .verdict plainAllow⟩ :
        Request × CallResult).1.ResponseBody = some [] ∧
      (Event.overrideBody (some []) ∈
          ((sessionCtx [rewriteBody [], allowAll]).AuthZResponse sampleResponse).trace ∧
        ((sessionCtx [rewriteBody [], allowAll]).AuthZResponse sampleResponse).rm.body =
          some []) :=
  ⟨((AuthZResponse_empty_replacement (sessionCtx [rewriteBody [], allowAll]) sampleResponse 0
      ⟨sampleSnapshot.pipe sampleResponse.original,
        .verdict { plainAllow with ModifiedBody := some [] }⟩
      { plainAllow with ModifiedBody := some [] } (by decide) rfl).1 rfl).1
      ⟨sampleSnapshot.pipe ⟨some [], some [9], 200⟩, .verdict plainAllow⟩ (by decide),
    ((AuthZResponse_empty_replacement (sessionCtx [rewriteBody [], allowAll]) sampleResponse 0
      ⟨sampleSnapshot.pipe sampleResponse.original,
        .verdict { plainAllow with ModifiedBody := some [] }⟩
      { plainAllow with ModifiedBody := some [] } (by decide) rfl).1 rfl).2
      (by decide) (by decide)⟩

theorem applyRewrite_status (st : Running) (v : Response) :
    (applyRewrite st v).modifiedStatusCode = st.modifiedStatusCode ∨
      0 < (applyRewrite st v).modifiedStatusCode := by
  by_cases h : 0 < v.ModifiedStatusCode <;> simp [applyRewrite, h]

theorem applyRewrite_status_keep (st : Running) (v : Response)
    (h : v.ModifiedStatusCode ≤ 0) :
    (applyRewrite st v).modifiedStatusCode = st.modifiedStatusCode := by
  simp [applyRewrite, not_lt.mpr h]

/-- Claim C12. Let the call number `n` of a response phase return a verdict `v`. If
`ModifiedStatusCode` of `v` is zero, the running status after the call is the status the
call was passed, and the next call is passed that same status. Whatever `v` is, the
running status after the call is the status the call was passed or a positive value, so
no verdict sets it to zero. -/
theorem AuthZResponse_zero_status (a : Ctx) (rm : ResponseModifier) (n : Nat)
    (c : Request × CallResult) (v : Response)
    (hc : (responseCalls (a.AuthZResponse rm).trace)[n]? = some c)
    (hv : c.2 = .verdict v) :
    (v.ModifiedStatusCode = 0 →
        (foldRewrites rm.original (verdicts ((responseCalls
          (a.AuthZResponse rm).trace).take (n + 1)))).modifiedStatusCode =
            c.1.ResponseStatusCode ∧
        ∀ next, (responseCalls (a.AuthZResponse rm).trace)[n + 1]? = some next →
          next.1.ResponseStatusCode = c.1.ResponseStatusCode) ∧
      ((foldRewrites rm.original (verdicts ((responseCalls
          (a.AuthZResponse rm).trace).take (n + 1)))).modifiedStatusCode =
            c.1.ResponseStatusCode ∨
        0 < (foldRewrites rm.original (verdicts ((responseCalls
          (a.AuthZResponse rm).trace).take (n + 1)))).modifiedStatusCode) := by
  rw [facts_after_call a rm n c v hc hv]
  refine ⟨fun h0 => ⟨?_, ?_⟩, ?_⟩
  · exact applyRewrite_status_keep _ v (le_of_eq h0)
  · intro next hnext
    have := congrArg Running.modifiedStatusCode (calls_step a rm n c next v hc hv hnext)
    rw [applyRewrite_status_keep _ v (le_of_eq h0)] at this
    exact this
  · exact applyRewrite_status _ v

theorem AuthZResponse_zero_status_witness :
    (⟨sampleSnapshot.pipe sampleResponse.original, .verdict plainAllow⟩ :
        Request × CallResult).1.ResponseStatusCode =
      (⟨sampleSnapshot.pipe sampleResponse.original,
        .verdict { plainAllow with ModifiedStatusCode := 0 }⟩ :
          Request × CallResult).1.ResponseStatusCode :=
  ((AuthZResponse_zero_status (sessionCtx [rewriteStatus 0, allowAll]) sampleResponse 0
    ⟨sampleSnapshot.pipe sampleResponse.original,
      .verdict { plainAllow with ModifiedStatusCode := 0 }⟩
    { plainAllow with ModifiedStatusCode := 0 } (by decide) rfl).1 rfl).2
    ⟨sampleSnapshot.pipe sampleResponse.original, .verdict plainAllow⟩ (by decide)

/-! ## Failing snapshots and the description passed in the request phase -/

/-- When the body cannot be read, or cannot be closed, or the headers cannot be written,
`AuthZRequest` returns that error, leaves the context as it was and calls nothing. -/
theorem AuthZRequest_build_error (a : Ctx) (r : HttpRequest) (rc : ReadCloser) (e : GoError)
    (hbody : r.Body = some rc)
    (hfail : rc.readErr = some e ∨ (rc.readErr = none ∧ rc.closeErr = some e) ∨
      (rc.readErr = none ∧ rc.closeErr = none ∧ r.Header.writeErr = some e)) :
    (a.AuthZRequest r).outcome = .error e ∧ (a.AuthZRequest r).ctx = a ∧
      (a.AuthZRequest r).trace = [] := by
  rcases hfail with h | ⟨h1, h2⟩ | ⟨h1, h2, h3⟩
  · simp [Ctx.AuthZRequest, drainBody, ReadCloser.ReadAll, hbody, h]
  · simp [Ctx.AuthZRequest, drainBody, ReadCloser.ReadAll, hbody, h1, h2]
  · simp [Ctx.AuthZRequest, drainBody, ReadCloser.ReadAll, NopCloser, hbody, h1, h2, h3]

theorem AuthZRequest_nil_body (a : Ctx) (r : HttpRequest) (hbody : r.Body = none) :
    (a.AuthZRequest r).outcome = .panic ∧ (a.AuthZRequest r).ctx = a ∧
      (a.AuthZRequest r).trace = [] := by
  simp [Ctx.AuthZRequest, hbody]

/-- A run of `AuthZRequest` either built its snapshot, or it stopped before the plugin
loop with the context as it was and an empty trace. -/
theorem AuthZRequest_cases (a : Ctx) (r : HttpRequest) :
    (∃ rc, r.Body = some rc ∧ rc.readErr = none ∧ rc.closeErr = none ∧
        r.Header.writeErr = none) ∨
      ((a.AuthZRequest r).outcome ≠ .ok ∧ (a.AuthZRequest r).ctx = a ∧
        (a.AuthZRequest r).trace = []) := by
  cases hbody : r.Body with
  | none =>
    obtain ⟨h1, h2, h3⟩ := AuthZRequest_nil_body a r hbody
    exact Or.inr ⟨by simp [h1], h2, h3⟩
  | some rc =>
    cases hr : rc.readErr with
    | some e =>
      obtain ⟨h1, h2, h3⟩ := AuthZRequest_build_error a r rc e hbody (Or.inl hr)
      exact Or.inr ⟨by simp [h1], h2, h3⟩
    | none =>
      cases hcl : rc.closeErr with
      | some e =>
        obtain ⟨h1, h2, h3⟩ := AuthZRequest_build_error a r rc e hbody (Or.inr (Or.inl ⟨hr, hcl⟩))
        exact Or.inr ⟨by simp [h1], h2, h3⟩
      | none =>
        cases hw : r.Header.writeErr with
        | some e =>
          obtain ⟨h1, h2, h3⟩ := AuthZRequest_build_error a r rc e hbody
            (Or.inr (Or.inr ⟨hr, hcl, hw⟩))
          exact Or.inr ⟨by simp [h1], h2, h3⟩
        | none => exact Or.inl ⟨rc, rfl, hr, hcl, rfl⟩

/-- The plugin loop of `AuthZRequest` records request-phase calls on `authReq` only. -/
theorem requestLoop_events (authReq : Request) (ps : List AuthorizationPlugin) (k : Nat) :
    ∀ ev ∈ (requestLoop authReq ps k).2, ∃ pos res, ev = Event.pluginRequest pos authReq res := by
  induction ps generalizing k with
  | nil => simp [requestLoop]
  | cons p rest ih =>
    simp only [requestLoop]
    split
    · simp
    · rename_i authRes hres
      cases hallow : authRes.Allow with
      | false => simp
      | true =>
        simp only [Bool.not_true, Bool.false_eq_true, if_false]
        intro ev hev
        simp only [List.mem_cons] at hev
        rcases hev with h | h
        · exact ⟨_, _, h⟩
        · exact ih _ ev h

/-- A run of `AuthZRequest` changes nothing of the context but `authReq`. -/
theorem AuthZRequest_ctx (a : Ctx) (r : HttpRequest) :
    ∃ stored, (a.AuthZRequest r).ctx = { a with authReq := stored } := by
  rcases AuthZRequest_cases a r with ⟨rc, hbody, hr, hcl, hw⟩ | ⟨_, h, _⟩
  · rw [AuthZRequest_built a r rc hbody hr hcl hw]
    exact ⟨_, rfl⟩
  · exact ⟨a.authReq, h⟩

/-- A run of `AuthZResponse` changes nothing of the context but `authReq`. -/
theorem AuthZResponse_ctx (a : Ctx) (rm : ResponseModifier) :
    ∃ stored, (a.AuthZResponse rm).ctx = { a with authReq := stored } := by
  cases hh : rm.headersErr with
  | some err =>
    rw [AuthZResponse_header_error a rm err hh]
    exact ⟨a.authReq, rfl⟩
  | none =>
    by_cases hok : (responseLoop a.plugins 0 a.authReq rm.original).outcome = .ok
    · rw [AuthZResponse_success a rm hh hok]
      exact ⟨_, rfl⟩
    · rw [AuthZResponse_failure a rm hh hok]
      exact ⟨_, rfl⟩

/-- Every call of a run of `AuthZRequest` is a request-phase call on the fresh snapshot. -/
theorem AuthZRequest_events (a : Ctx) (r : HttpRequest) :
    ∀ ev ∈ (a.AuthZRequest r).trace, ∃ pos res rc, r.Body = some rc ∧
      ev = Event.pluginRequest pos
        { User := a.user, UserAuthNMethod := a.userAuthNMethod,
          RequestMethod := a.requestMethod, RequestUri := a.requestUri,
          RequestBody := some rc.data, RequestHeaders := r.Header.wire,
          ResponseStatusCode := 0, ResponseBody := none, ResponseHeaders := none } res := by
  intro ev hev
  rcases AuthZRequest_cases a r with ⟨rc, hbody, hr, hcl, hw⟩ | ⟨_, _, h⟩
  · rw [AuthZRequest_built a r rc hbody hr hcl hw] at hev
    obtain ⟨pos, res, h⟩ := requestLoop_events _ _ _ ev hev
    exact ⟨pos, res, rc, hbody, h⟩
  · rw [h] at hev
    simp at hev

/-- Claim C13. If building the snapshot fails in `AuthZRequest` (the body cannot be read,
or the stream cannot be closed, or the headers cannot be written), the call returns that
error, calls no plugin, and leaves the context, with the request description stored on
it, as it was before the call. -/
theorem AuthZRequest_snapshot_failure (a : Ctx) (r : HttpRequest) (rc : ReadCloser)
    (e : GoError) (hbody : r.Body = some rc)
    (hfail : rc.readErr = some e ∨ (rc.readErr = none ∧ rc.closeErr = some e) ∨
      (rc.readErr = none ∧ rc.closeErr = none ∧ r.Header.writeErr = some e)) :
    (a.AuthZRequest r).outcome = .error e ∧
      (a.AuthZRequest r).trace = [] ∧
      invoked (a.AuthZRequest r).trace = [] ∧
      (a.AuthZRequest r).ctx.authReq = a.authReq := by
  obtain ⟨h1, h2, h3⟩ := AuthZRequest_build_error a r rc e hbody hfail
  refine ⟨h1, h3, ?_, ?_⟩
  · rw [h3]
    rfl
  · rw [h2]

theorem AuthZRequest_snapshot_failure_witness :
    ((sessionCtx [allowAll]).AuthZRequest (unreadableRequest (.foreign 7 "reset"))).outcome =
        .error (.foreign 7 "reset") ∧
      ((sessionCtx [allowAll]).AuthZRequest (unreadableRequest (.foreign 7 "reset"))).trace =
        [] ∧
      ((sessionCtx [allowAll]).AuthZRequest
        (unreadableRequest (.foreign 7 "reset"))).ctx.authReq = some sampleSnapshot :=
  ⟨(AuthZRequest_snapshot_failure (sessionCtx [allowAll]) (unreadableRequest (.foreign 7 "reset"))
      { data := [1, 2], readErr := some (.foreign 7 "reset"), closeErr := none }
      (.foreign 7 "reset") rfl (Or.inl rfl)).1,
    (AuthZRequest_snapshot_failure (sessionCtx [allowAll]) (unreadableRequest (.foreign 7 "reset"))
      { data := [1, 2], readErr := some (.foreign 7 "reset"), closeErr := none }
      (.foreign 7 "reset") rfl (Or.inl rfl)).2.1,
    (AuthZRequest_snapshot_failure (sessionCtx [allowAll]) (unreadableRequest (.foreign 7 "reset"))
      { data := [1, 2], readErr := some (.foreign 7 "reset"), closeErr := none }
      (.foreign 7 "reset") rfl (Or.inl rfl)).2.2.2⟩

/-- Claim C15. Every plugin call of `AuthZRequest` is passed a request description whose
`User`, `UserAuthNMethod`, `RequestMethod` and `RequestUri` are those of the context,
whose `RequestBody` and `RequestHeaders` are the body read and the headers written, and
whose `ResponseStatusCode` is 0 and `ResponseBody` and `ResponseHeaders` are absent. On a
context made by `NewCtx` the first four are the values given to `NewCtx`, also after the
context has run a request phase and a response phase. -/
theorem AuthZRequest_description :
    (∀ (a : Ctx) (r : HttpRequest), ∀ ev ∈ (a.AuthZRequest r).trace,
      ∃ pos res rc, r.Body = some rc ∧
        ev = Event.pluginRequest pos
          { User := a.user, UserAuthNMethod := a.userAuthNMethod,
            RequestMethod := a.requestMethod, RequestUri := a.requestUri,
            RequestBody := some rc.data, RequestHeaders := r.Header.wire,
            ResponseStatusCode := 0, ResponseBody := none, ResponseHeaders := none } res) ∧
    (∀ (plugins : List AuthorizationPlugin) (user userAuthNMethod requestMethod requestUri : String)
      (r0 : HttpRequest) (rm : ResponseModifier) (r : HttpRequest),
      ∀ ev ∈ (((((NewCtx plugins user userAuthNMethod requestMethod requestUri).AuthZRequest
          r0).ctx).AuthZResponse rm).ctx.AuthZRequest r).trace,
      ∃ pos res rc, r.Body = some rc ∧
        ev = Event.pluginRequest pos
          { User := user, UserAuthNMethod := userAuthNMethod,
            RequestMethod := requestMethod, RequestUri := requestUri,
            RequestBody := some rc.data, RequestHeaders := r.Header.wire,
            ResponseStatusCode := 0, ResponseBody := none, ResponseHeaders := none } res) := by
  refine ⟨AuthZRequest_events, ?_⟩
  intro plugins user userAuthNMethod requestMethod requestUri r0 rm r ev hev
  obtain ⟨s1, h1⟩ := AuthZRequest_ctx
    (NewCtx plugins user userAuthNMethod requestMethod requestUri) r0
  obtain ⟨s2, h2⟩ := AuthZResponse_ctx
    ((NewCtx plugins user userAuthNMethod requestMethod requestUri).AuthZRequest r0).ctx rm
  have := AuthZRequest_events _ r ev hev
  rw [h2, h1] at this
  exact this

theorem AuthZRequest_description_witness :
    ∃ pos res rc, sampleRequest.Body = some rc ∧
      Event.pluginRequest 0 sampleSnapshot (.verdict plainAllow) =
        Event.pluginRequest pos
          { User := "alice", UserAuthNMethod := "krb", RequestMethod := "GET",
            RequestUri := "/v1.21/version", RequestBody := some rc.data,
            RequestHeaders := sampleRequest.Header.wire, ResponseStatusCode := 0,
            ResponseBody := none, ResponseHeaders := none } res :=
  AuthZRequest_description.2 [allowAll] "alice" "krb" "GET" "/v1.21/version" sampleRequest
    sampleResponse sampleRequest (Event.pluginRequest 0 sampleSnapshot (.verdict plainAllow))
    (by decide)

/-! ## Veto, error propagation and the frame of the response phase -/

theorem pipe_pipe (q : Request) (s1 s2 : Running) : (q.pipe s1).pipe s2 = q.pipe s2 := rfl

/-- The plugin loop of `AuthZResponse` leaves on the context the description it was given,
with only the response-facing fields rewritten. -/
theorem responseLoop_authReq (ps : List AuthorizationPlugin) (k : Nat) (q : Request)
    (st : Running) :
    (responseLoop ps k (some q) st).authReq = some q ∨
      ∃ st', (responseLoop ps k (some q) st).authReq = some (q.pipe st') := by
  induction ps generalizing k q st with
  | nil => exact Or.inl rfl
  | cons p rest ih =>
    right
    cases hres : p.AuthZResponse (q.pipe st) with
    | failed err => exact ⟨st, by simp [responseLoop, hres]⟩
    | verdict v =>
      cases hallow : v.Allow with
      | false => exact ⟨st, by simp [responseLoop, hres, hallow]⟩
      | true =>
        rw [responseLoop_cons_allow p rest k q st v hres hallow]
        rcases ih (k + 1) (q.pipe st) (applyRewrite st v) with h | ⟨st', h⟩
        · exact ⟨st, h⟩
        · exact ⟨st', by rw [h, pipe_pipe]⟩

/-- The calls of the plugin loop of `AuthZResponse`: the call number `n` is the call of the
plugin at position `k + n` of the list on the description recorded; a call that does not
allow is the last one and decides the error returned; and a loop that succeeds called
every plugin of the list. -/
theorem responseLoop_calls (ps : List AuthorizationPlugin) (k : Nat) (q : Request)
    (st : Running) :
    (∀ n c, (responseCalls (responseLoop ps k (some q) st).trace)[n]? = some c →
        (∃ p, ps[n]? = some p ∧ c.2 = p.AuthZResponse c.1) ∧
        (c.2.allows = false →
          (responseCalls (responseLoop ps k (some q) st).trace).length = n + 1) ∧
        (∀ e, c.2 = .failed e → (responseLoop ps k (some q) st).outcome = .error e) ∧
        (∀ v, c.2 = .verdict v → v.Allow = false →
          (responseLoop ps k (some q) st).outcome = .error (Errorf v.Msg))) ∧
      ((responseLoop ps k (some q) st).outcome = .ok →
        (responseCalls (responseLoop ps k (some q) st).trace).length = ps.length) := by
  induction ps generalizing k q st with
  | nil => simp [responseLoop, responseCalls]
  | cons p rest ih =>
    cases hres : p.AuthZResponse (q.pipe st) with
    | failed err =>
      have hl : responseLoop (p :: rest) k (some q) st =
          ⟨.error err, some (q.pipe st), st,
            [Event.pluginResponse k (q.pipe st) (.failed err)]⟩ := by
        simp [responseLoop, hres]
      rw [hl]
      refine ⟨?_, by simp⟩
      intro n c hc
      cases n with
      | zero =>
        simp only [responseCalls, List.filterMap_cons, Event.responseCall?, List.filterMap_nil,
          List.getElem?_cons_zero, Option.some.injEq] at hc
        subst hc
        refine ⟨⟨p, List.getElem?_cons_zero, hres.symm⟩, fun _ => by simp [responseCalls, Event.responseCall?],
          ?_, ?_⟩
        · intro e he
          simp only [CallResult.failed.injEq] at he
          rw [he]
        · intro v hv
          simp at hv
      | succ n => simp [responseCalls, Event.responseCall?] at hc
    | verdict v =>
      cases hallow : v.Allow with
      | false =>
        have hl : responseLoop (p :: rest) k (some q) st =
            ⟨.error (Errorf v.Msg), some (q.pipe st), st,
              [Event.pluginResponse k (q.pipe st) (.verdict v)]⟩ := by
          simp [responseLoop, hres, hallow]
        rw [hl]
        refine ⟨?_, by simp⟩
        intro n c hc
        cases n with
        | zero =>
          simp only [responseCalls, List.filterMap_cons, Event.responseCall?,
            List.filterMap_nil, List.getElem?_cons_zero, Option.some.injEq] at hc
          subst hc
          refine ⟨⟨p, List.getElem?_cons_zero, hres.symm⟩, fun _ => by simp [responseCalls, Event.responseCall?],
            ?_, ?_⟩
          · intro e he
            simp at he
          · intro w hw _
            simp only [CallResult.verdict.injEq] at hw
            rw [hw]
        | succ n => simp [responseCalls, Event.responseCall?] at hc
      | true =>
        rw [responseLoop_cons_allow p rest k q st v hres hallow]
        obtain ⟨ih1, ih2⟩ := ih (k + 1) (q.pipe st) (applyRewrite st v)
        simp only [responseCalls, List.filterMap_cons, Event.responseCall?, List.length_cons]
        simp only [responseCalls] at ih1 ih2
        refine ⟨?_, fun hok => by rw [ih2 hok]⟩
        intro n c hc
        cases n with
        | zero =>
          simp only [List.getElem?_cons_zero, Option.some.injEq] at hc
          subst hc
          refine ⟨⟨p, List.getElem?_cons_zero, hres.symm⟩, ?_, ?_, ?_⟩
          · intro h
            simp [CallResult.allows, hallow] at h
          · intro e he
            simp at he
          · intro w hw hw2
            simp only [CallResult.verdict.injEq] at hw
            rw [← hw, hallow] at hw2
            simp at hw2
        | succ n =>
          simp only [List.getElem?_cons_succ] at hc
          obtain ⟨h1, h2, h3, h4⟩ := ih1 n c hc
          refine ⟨by simpa using h1, fun h => by rw [h2 h], h3, h4⟩

/-- With headers that are read without error, `AuthZResponse` ends as its plugin loop. -/
theorem AuthZResponse_outcome (a : Ctx) (rm : ResponseModifier) (hh : rm.headersErr = none) :
    (a.AuthZResponse rm).outcome = (responseLoop a.plugins 0 a.authReq rm.original).outcome := by
  by_cases hok : (responseLoop a.plugins 0 a.authReq rm.original).outcome = .ok
  · rw [AuthZResponse_success a rm hh hok, hok]
  · rw [AuthZResponse_failure a rm hh hok]

/-- On a context that holds a request description, `AuthZResponse` never dereferences a
nil request description. -/
theorem AuthZResponse_no_panic (a : Ctx) (rm : ResponseModifier) (q : Request)
    (hq : a.authReq = some q) : (a.AuthZResponse rm).outcome ≠ .panic := by
  cases hh : rm.headersErr with
  | some err =>
    rw [AuthZResponse_header_error a rm err hh]
    simp
  | none =>
    rw [AuthZResponse_outcome a rm hh, hq]
    intro hp
    have h3 := (responseLoop_fold a.plugins 0 q rm.original).2.2
    rw [hp] at h3
    obtain ⟨err, herr⟩ := h3 (by simp)
    simp at herr

/-- What `AuthZResponse` leaves as request description on a context that held `q`: `q`
itself or `q` with the response-facing fields rewritten. -/
theorem AuthZResponse_authReq (a : Ctx) (rm : ResponseModifier) (q : Request)
    (hq : a.authReq = some q) :
    (a.AuthZResponse rm).ctx.authReq = some q ∨
      ∃ st, (a.AuthZResponse rm).ctx.authReq = some (q.pipe st) := by
  cases hh : rm.headersErr with
  | some err =>
    rw [AuthZResponse_header_error a rm err hh]
    exact Or.inl hq
  | none =>
    have hloop := responseLoop_authReq a.plugins 0 q rm.original
    rw [← hq] at hloop
    by_cases hok : (responseLoop a.plugins 0 a.authReq rm.original).outcome = .ok
    · rw [AuthZResponse_success a rm hh hok]
      rw [hq] at hloop ⊢
      exact hloop
    · rw [AuthZResponse_failure a rm hh hok]
      rw [hq] at hloop ⊢
      exact hloop

/-- Claim C14. After every run of `AuthZResponse`, successful or failing, on a context that
holds a request description, the context still holds one, and its `User`,
`UserAuthNMethod`, `RequestMethod`, `RequestUri`, `RequestBody` and `RequestHeaders` are
what they were before the call; when the description was stored by `AuthZRequest`, they
are the values `AuthZRequest` captured. Only the three response fields may differ. -/
theorem AuthZResponse_request_facts_frozen :
    (∀ (a : Ctx) (rm : ResponseModifier) (q : Request), a.authReq = some q →
      ∃ q', (a.AuthZResponse rm).ctx.authReq = some q' ∧
        q'.User = q.User ∧ q'.UserAuthNMethod = q.UserAuthNMethod ∧
        q'.RequestMethod = q.RequestMethod ∧ q'.RequestUri = q.RequestUri ∧
        q'.RequestBody = q.RequestBody ∧ q'.RequestHeaders = q.RequestHeaders) ∧
    (∀ (a : Ctx) (r : HttpRequest) (rc : ReadCloser) (rm : ResponseModifier),
      r.Body = some rc → rc.readErr = none → rc.closeErr = none →
      r.Header.writeErr = none →
      ∃ q', ((a.AuthZRequest r).ctx.AuthZResponse rm).ctx.authReq = some q' ∧
        q'.User = a.user ∧ q'.UserAuthNMethod = a.userAuthNMethod ∧
        q'.RequestMethod = a.requestMethod ∧ q'.RequestUri = a.requestUri ∧
        q'.RequestBody = some rc.data ∧ q'.RequestHeaders = r.Header.wire) := by
  have general : ∀ (a : Ctx) (rm : ResponseModifier) (q : Request), a.authReq = some q →
      ∃ q', (a.AuthZResponse rm).ctx.authReq = some q' ∧
        q'.User = q.User ∧ q'.UserAuthNMethod = q.UserAuthNMethod ∧
        q'.RequestMethod = q.RequestMethod ∧ q'.RequestUri = q.RequestUri ∧
        q'.RequestBody = q.RequestBody ∧ q'.RequestHeaders = q.RequestHeaders := by
    intro a rm q hq
    rcases AuthZResponse_authReq a rm q hq with h | ⟨st, h⟩
    · exact ⟨q, h, rfl, rfl, rfl, rfl, rfl, rfl⟩
    · exact ⟨q.pipe st, h, rfl, rfl, rfl, rfl, rfl, rfl⟩
  refine ⟨general, ?_⟩
  intro a r rc rm hbody hr hcl hw
  have hstored : (a.AuthZRequest r).ctx.authReq =
      some (a.newRequest (some rc.data) r.Header.wire) := by
    rw [AuthZRequest_built a r rc hbody hr hcl hw]
  exact general _ rm _ hstored

theorem AuthZResponse_request_facts_frozen_witness :
    ∃ q', ((sessionCtx [rewriteBody [82], denyResponseWith "no"]).AuthZResponse
        sampleResponse).ctx.authReq = some q' ∧
      q'.User = sampleSnapshot.User ∧ q'.UserAuthNMethod = sampleSnapshot.UserAuthNMethod ∧
      q'.RequestMethod = sampleSnapshot.RequestMethod ∧
      q'.RequestUri = sampleSnapshot.RequestUri ∧
      q'.RequestBody = sampleSnapshot.RequestBody ∧
      q'.RequestHeaders = sampleSnapshot.RequestHeaders :=
  AuthZResponse_request_facts_frozen.1 (sessionCtx [rewriteBody [82], denyResponseWith "no"])
    sampleResponse sampleSnapshot rfl

/-- Claim C16. On a context that holds a request description, with headers that are read
without error: `AuthZResponse` returns no error exactly when every plugin of the list is
called and allows. The call number `n` is the call of the plugin at position `n` on the
description it is passed, which carries the fold of the earlier rewrites. A call that
does not allow, at any position, makes `AuthZResponse` return an error and is the last
call made. -/
theorem AuthZResponse_veto (a : Ctx) (rm : ResponseModifier) (q : Request)
    (hq : a.authReq = some q) (hh : rm.headersErr = none) :
    ((a.AuthZResponse rm).outcome = .ok ↔
        (responseCalls (a.AuthZResponse rm).trace).length = a.plugins.length ∧
          ∀ c ∈ responseCalls (a.AuthZResponse rm).trace, c.2.allows = true) ∧
      (∀ n c, (responseCalls (a.AuthZResponse rm).trace)[n]? = some c →
        (∃ p, a.plugins[n]? = some p ∧ c.2 = p.AuthZResponse c.1) ∧
        c.1.responseFacts = foldRewrites rm.original
          (verdicts ((responseCalls (a.AuthZResponse rm).trace).take n))) ∧
      (∀ n c, (responseCalls (a.AuthZResponse rm).trace)[n]? = some c →
        c.2.allows = false →
        (∃ err, (a.AuthZResponse rm).outcome = .error err) ∧
          (responseCalls (a.AuthZResponse rm).trace).length = n + 1) := by
  have hfacts := calls_facts a rm
  rw [AuthZResponse_outcome a rm hh, responseCalls_AuthZResponse a rm hh] at *
  rw [hq] at *
  obtain ⟨hcalls, hlen⟩ := responseLoop_calls a.plugins 0 q rm.original
  obtain ⟨hiff, _, herr⟩ := responseLoop_fold a.plugins 0 q rm.original
  refine ⟨⟨fun hok => ⟨hlen hok, hiff.mp hok⟩, fun h => hiff.mpr h.2⟩, ?_, ?_⟩
  · intro n c hc
    exact ⟨(hcalls n c hc).1, hfacts n c hc⟩
  · intro n c hc hdeny
    refine ⟨herr ?_, (hcalls n c hc).2.1 hdeny⟩
    intro hok
    have := hiff.mp hok c (List.getElem?_mem hc)
    rw [hdeny] at this
    exact absurd this (by simp)

theorem AuthZResponse_veto_witness :
    (∃ err, ((sessionCtx [rewriteBody [82], denyResponseWith "no", allowAll]).AuthZResponse
        sampleResponse).outcome = .error err) ∧
      (responseCalls ((sessionCtx [rewriteBody [82], denyResponseWith "no",
        allowAll]).AuthZResponse sampleResponse).trace).length = 1 + 1 :=
  (AuthZResponse_veto (sessionCtx [rewriteBody [82], denyResponseWith "no", allowAll])
    sampleResponse sampleSnapshot rfl rfl).2.2 1
    ⟨sampleSnapshot.pipe ⟨some [82], some [9], 200⟩,
      .verdict { plainAllow with Allow := false, Msg := "no" }⟩ (by decide) rfl

/-- The plugin loop of `AuthZRequest` returns the error of the first failing call. -/
theorem requestLoop_first_failed (authReq : Request) (ps : List AuthorizationPlugin)
    (i k : Nat) (plugin : AuthorizationPlugin) (e : GoError) (hi : ps[i]? = some plugin)
    (hres : plugin.AuthZRequest authReq = .failed e)
    (hfirst : ∀ j p, j < i → ps[j]? = some p → (p.AuthZRequest authReq).allows = true) :
    (requestLoop authReq ps k).1 = .error e := by
  induction ps generalizing i k with
  | nil => simp at hi
  | cons p rest ih =>
    cases i with
    | zero =>
      simp only [List.getElem?_cons_zero, Option.some.injEq] at hi
      subst hi
      simp [requestLoop, hres]
    | succ i =>
      have h0 := hfirst 0 p (Nat.succ_pos i) (by simp)
      cases hp : p.AuthZRequest authReq with
      | failed err => simp [hp, CallResult.allows] at h0
      | verdict authRes =>
        simp only [hp, CallResult.allows] at h0
        have hrest := ih i (k + 1) (by simpa using hi)
          (fun j q hj hq => hfirst (j + 1) q (by omega) (by simpa using hq))
        simp [requestLoop, hp, h0, hrest]

/-- Claim C17. When a plugin call of the request phase fails with the error `e`, all
earlier plugins having allowed, `AuthZRequest` returns exactly `e`; when a plugin call of
the response phase fails with `e`, `AuthZResponse` returns exactly `e`; and when
`RawHeaders` fails with `e`, `AuthZResponse` returns exactly `e` and calls no plugin. -/
theorem call_error_returned_as_is :
    (∀ (a : Ctx) (r : HttpRequest) (rc : ReadCloser) (i : Nat) (plugin : AuthorizationPlugin)
      (e : GoError),
      r.Body = some rc → rc.readErr = none → rc.closeErr = none →
      r.Header.writeErr = none → a.plugins[i]? = some plugin →
      plugin.AuthZRequest (a.newRequest (some rc.data) r.Header.wire) = .failed e →
      (∀ j p, j < i → a.plugins[j]? = some p →
        (p.AuthZRequest (a.newRequest (some rc.data) r.Header.wire)).allows = true) →
      (a.AuthZRequest r).outcome = .error e) ∧
    (∀ (a : Ctx) (rm : ResponseModifier) (c : Request × CallResult) (e : GoError),
      c ∈ responseCalls (a.AuthZResponse rm).trace → c.2 = .failed e →
      (a.AuthZResponse rm).outcome = .error e) ∧
    (∀ (a : Ctx) (rm : ResponseModifier) (e : GoError), rm.RawHeaders.2 = some e →
      (a.AuthZResponse rm).outcome = .error e ∧ invoked (a.AuthZResponse rm).trace = [] ∧
        responseCalls (a.AuthZResponse rm).trace = []) := by
  refine ⟨?_, ?_, ?_⟩
  · intro a r rc i plugin e hbody hr hcl hw hi hres hfirst
    rw [AuthZRequest_built a r rc hbody hr hcl hw]
    exact requestLoop_first_failed _ _ i 0 plugin e hi hres hfirst
  · intro a rm c e hc hfail
    cases hh : rm.headersErr with
    | some err =>
      rw [AuthZResponse_header_error a rm err hh] at hc
      simp [responseCalls, Event.responseCall?] at hc
    | none =>
      rw [responseCalls_AuthZResponse a rm hh] at hc
      rw [AuthZResponse_outcome a rm hh]
      cases hq : a.authReq with
      | none =>
        rw [hq, (responseLoop_none a.plugins 0 rm.original).1] at hc
        simp [responseCalls] at hc
      | some q =>
        rw [hq] at hc
        obtain ⟨n, hn⟩ := List.mem_iff_getElem?.mp hc
        exact ((responseLoop_calls a.plugins 0 q rm.original).1 n c hn).2.2.1 e hfail
  · intro a rm e he
    rw [AuthZResponse_header_error a rm e he]
    exact ⟨rfl, rfl, rfl⟩

theorem call_error_returned_as_is_witness :
    ((sampleCtx [allowAll, failWith (.foreign 3 "plugin down")]).AuthZRequest
        sampleRequest).outcome = .error (.foreign 3 "plugin down") ∧
      ((sessionCtx [allowAll, failWith (.foreign 3 "plugin down")]).AuthZResponse
        sampleResponse).outcome = .error (.foreign 3 "plugin down") ∧
      ((sessionCtx [allowAll]).AuthZResponse
        { sampleResponse with headersErr := some (.foreign 4 "no headers") }).outcome =
        .error (.foreign 4 "no headers") :=
  ⟨call_error_returned_as_is.1 (sampleCtx [allowAll, failWith (.foreign 3 "plugin down")])
      sampleRequest { data := [1, 2, 3], readErr := none, closeErr := none } 1
      (failWith (.foreign 3 "plugin down")) (.foreign 3 "plugin down") rfl rfl rfl rfl rfl rfl
      (fun j p hj hp => by
        have hj0 : j = 0 := by omega
        subst hj0
        simp only [sampleCtx, NewCtx, List.getElem?_cons_zero, Option.some.injEq] at hp
        subst hp
        rfl),
    call_error_returned_as_is.2.1 (sessionCtx [allowAll, failWith (.foreign 3 "plugin down")])
      sampleResponse ⟨sampleSnapshot.pipe sampleResponse.original,
        .failed (.foreign 3 "plugin down")⟩ (.foreign 3 "plugin down") (by decide) rfl,
    (call_error_returned_as_is.2.2 (sessionCtx [allowAll])
      { sampleResponse with headersErr := some (.foreign 4 "no headers") }
      (.foreign 4 "no headers") rfl).1⟩

/-- Claim C18. After a run of `AuthZRequest` that returned no error, and likewise after a
run in which a plugin was called and denied or failed, the context holds a request
description, so no run of `AuthZResponse` on that context ends in the nil dereference of
the request description, whatever the plugin list and the response are. -/
theorem AuthZResponse_description_present :
    (∀ (a : Ctx) (r : HttpRequest), (a.AuthZRequest r).outcome = .ok →
      (∃ q, (a.AuthZRequest r).ctx.authReq = some q) ∧
        ∀ rm, ((a.AuthZRequest r).ctx.AuthZResponse rm).outcome ≠ .panic) ∧
    (∀ (a : Ctx) (r : HttpRequest) (pos : Nat) (req : Request) (res : CallResult),
      Event.pluginRequest pos req res ∈ (a.AuthZRequest r).trace → res.allows = false →
      (∃ q, (a.AuthZRequest r).ctx.authReq = some q) ∧
        ∀ rm, ((a.AuthZRequest r).ctx.AuthZResponse rm).outcome ≠ .panic) := by
  have built : ∀ (a : Ctx) (r : HttpRequest),
      (∃ rc, r.Body = some rc ∧ rc.readErr = none ∧ rc.closeErr = none ∧
        r.Header.writeErr = none) →
      (∃ q, (a.AuthZRequest r).ctx.authReq = some q) ∧
        ∀ rm, ((a.AuthZRequest r).ctx.AuthZResponse rm).outcome ≠ .panic := by
    intro a r ⟨rc, hbody, hr, hcl, hw⟩
    have hstored : (a.AuthZRequest r).ctx.authReq =
        some (a.newRequest (some rc.data) r.Header.wire) := by
      rw [AuthZRequest_built a r rc hbody hr hcl hw]
    exact ⟨⟨_, hstored⟩, fun rm => AuthZResponse_no_panic _ rm _ hstored⟩
  refine ⟨?_, ?_⟩
  · intro a r hok
    rcases AuthZRequest_cases a r with h | ⟨hne, _, _⟩
    · exact built a r h
    · exact absurd hok hne
  · intro a r pos req res hmem _
    rcases AuthZRequest_cases a r with h | ⟨_, _, htrace⟩
    · exact built a r h
    · rw [htrace] at hmem
      simp at hmem

theorem AuthZResponse_description_present_witness :
    (∃ q, ((sampleCtx [allowAll, denyWith "no"]).AuthZRequest sampleRequest).ctx.authReq =
        some q) ∧
      (((sampleCtx [allowAll, denyWith "no"]).AuthZRequest
        sampleRequest).ctx.AuthZResponse sampleResponse).outcome ≠ .panic :=
  ⟨(AuthZResponse_description_present.2 (sampleCtx [allowAll, denyWith "no"]) sampleRequest 1
      sampleSnapshot (.verdict { plainAllow with Allow := false, Msg := "no" })
      (by decide) rfl).1,
    (AuthZResponse_description_present.2 (sampleCtx [allowAll, denyWith "no"]) sampleRequest 1
      sampleSnapshot (.verdict { plainAllow with Allow := false, Msg := "no" })
      (by decide) rfl).2 sampleResponse⟩

/-! ## The writes of a successful response phase and the range of the status -/

theorem filter_isWrite_calls (t : List Event)
    (h : ∀ ev ∈ t, ∃ pos q res, ev = Event.pluginResponse pos q res) :
    t.filter Event.isWrite = [] := by
  rw [List.filter_eq_nil_iff]
  intro ev hev
  obtain ⟨pos, q, res, rfl⟩ := h ev hev
  simp [Event.isWrite, Event.isOverride]

theorem filter_isWrite_overrideEvents (st : Running) :
    (overrideEvents st).filter Event.isWrite = overrideEvents st := by
  cases hb : st.modifiedBody <;> cases hh : st.modifiedHeaders <;>
    simp [overrideEvents, hb, hh, Event.isWrite, Event.isOverride]

theorem not_mem_overrideEvents_status (st : Running) (code : Int) :
    Event.overrideStatusCode code ∉ overrideEvents st := by
  cases hb : st.modifiedBody <;> cases hh : st.modifiedHeaders <;>
    simp [overrideEvents, hb, hh]

theorem not_mem_calls_status (t : List Event) (code : Int)
    (h : ∀ ev ∈ t, ∃ pos q res, ev = Event.pluginResponse pos q res) :
    Event.overrideStatusCode code ∉ t := by
  intro hmem
  obtain ⟨pos, q, res, hev⟩ := h _ hmem
  simp at hev

/-- Claim C19. On every run of `AuthZResponse` that returns no error, the writes on the
response modifier are, in this order: `OverrideBody` with the final running body if
that body is present, `OverrideHeader` with the final running headers if they are
present, and `Flush`, where the final running values are the fold of the verdicts over
the values originally read. On every run, whatever the plugins return, no status override
is called. -/
theorem AuthZResponse_write_sequence (a : Ctx) (rm : ResponseModifier) :
    ((a.AuthZResponse rm).outcome = .ok →
        (a.AuthZResponse rm).trace.filter Event.isWrite =
          overrideEvents (foldRewrites rm.original
            (verdicts (responseCalls (a.AuthZResponse rm).trace))) ++ [.flush]) ∧
      (∀ code, Event.overrideStatusCode code ∉ (a.AuthZResponse rm).trace) := by
  have hcalls := responseLoop_trace_calls a.plugins 0 a.authReq rm.original
  refine ⟨?_, ?_⟩
  · intro hok
    obtain ⟨hh, hloop⟩ := AuthZResponse_ok_inv a rm hok
    rw [← AuthZResponse_ok_running a rm hok, AuthZResponse_success a rm hh hloop]
    simp only [List.filter_append, filter_isWrite_calls _ hcalls, filter_isWrite_overrideEvents]
    simp [readEvents, Event.isWrite, Event.isOverride]
  · intro code
    cases hh : rm.headersErr with
    | some err =>
      rw [AuthZResponse_header_error a rm err hh]
      simp
    | none =>
      by_cases hok : (responseLoop a.plugins 0 a.authReq rm.original).outcome = .ok
      · rw [AuthZResponse_success a rm hh hok]
        simp only [List.mem_append, not_or]
        exact ⟨⟨⟨by simp [readEvents], not_mem_calls_status _ code hcalls⟩,
          not_mem_overrideEvents_status _ code⟩, by simp⟩
      · rw [AuthZResponse_failure a rm hh hok]
        simp only [List.mem_append, not_or]
        exact ⟨by simp [readEvents], not_mem_calls_status _ code hcalls⟩

theorem AuthZResponse_write_sequence_witness :
    ((sessionCtx [rewriteStatus 403, rewriteBody [82]]).AuthZResponse
        sampleResponse).trace.filter Event.isWrite =
      overrideEvents (foldRewrites sampleResponse.original (verdicts (responseCalls
        ((sessionCtx [rewriteStatus 403, rewriteBody [82]]).AuthZResponse
          sampleResponse).trace))) ++ [.flush] :=
  (AuthZResponse_write_sequence (sessionCtx [rewriteStatus 403, rewriteBody [82]])
    sampleResponse).1 (by decide)

theorem foldRewrites_status (vs : List Response) (st : Running) :
    (foldRewrites st vs).modifiedStatusCode = st.modifiedStatusCode ∨
      0 < (foldRewrites st vs).modifiedStatusCode := by
  induction vs generalizing st with
  | nil => exact Or.inl rfl
  | cons v rest ih =>
    simp only [foldRewrites, List.foldl_cons]
    have h1 := ih (applyRewrite st v)
    simp only [foldRewrites] at h1
    rcases h1 with h | h
    · rw [h]
      exact applyRewrite_status st v
    · exact Or.inr h

/-- Claim C20. In every run of `AuthZResponse`, the running status after any number of
calls is the status originally read or a positive value, and so is every
`ResponseStatusCode` passed to a plugin. A verdict whose `ModifiedStatusCode` is negative
leaves the running status as it is: the next call is passed the same status. -/
theorem AuthZResponse_status_range (a : Ctx) (rm : ResponseModifier) :
    (∀ m, (foldRewrites rm.original (verdicts ((responseCalls
          (a.AuthZResponse rm).trace).take m))).modifiedStatusCode = rm.StatusCode ∨
        0 < (foldRewrites rm.original (verdicts ((responseCalls
          (a.AuthZResponse rm).trace).take m))).modifiedStatusCode) ∧
      (∀ n c, (responseCalls (a.AuthZResponse rm).trace)[n]? = some c →
        (c.1.ResponseStatusCode = rm.StatusCode ∨ 0 < c.1.ResponseStatusCode) ∧
        ∀ v, c.2 = .verdict v → v.ModifiedStatusCode < 0 →
          (foldRewrites rm.original (verdicts ((responseCalls
            (a.AuthZResponse rm).trace).take (n + 1)))).modifiedStatusCode =
              c.1.ResponseStatusCode ∧
          ∀ next, (responseCalls (a.AuthZResponse rm).trace)[n + 1]? = some next →
            next.1.ResponseStatusCode = c.1.ResponseStatusCode) := by
  have hrange := fun m => foldRewrites_status
    (verdicts ((responseCalls (a.AuthZResponse rm).trace).take m)) rm.original
  refine ⟨hrange, ?_⟩
  intro n c hc
  refine ⟨?_, ?_⟩
  · have hf := congrArg Running.modifiedStatusCode (calls_facts a rm n c hc)
    have := hrange n
    rw [← hf] at this
    exact this
  · intro v hv hneg
    rw [facts_after_call a rm n c v hc hv]
    have hkeep := applyRewrite_status_keep c.1.responseFacts v (le_of_lt hneg)
    refine ⟨hkeep, ?_⟩
    intro next hnext
    have := congrArg Running.modifiedStatusCode (calls_step a rm n c next v hc hv hnext)
    rw [hkeep] at this
    exact this

theorem AuthZResponse_status_range_witness :
    (⟨sampleSnapshot.pipe sampleResponse.original, .verdict plainAllow⟩ :
        Request × CallResult).1.ResponseStatusCode =
      (⟨sampleSnapshot.pipe sampleResponse.original,
        .verdict { plainAllow with ModifiedStatusCode := -5 }⟩ :
          Request × CallResult).1.ResponseStatusCode :=
  (((AuthZResponse_status_range (sessionCtx [rewriteStatus (-5), allowAll]) sampleResponse).2 0
    ⟨sampleSnapshot.pipe sampleResponse.original,
      .verdict { plainAllow with ModifiedStatusCode := -5 }⟩ (by decide)).2
    { plainAllow with ModifiedStatusCode := -5 } rfl (by decide)).2
    ⟨sampleSnapshot.pipe sampleResponse.original, .verdict plainAllow⟩ (by decide)

/-! ## The committed response and the plugin list -/

theorem pipeFold_pipe (q : Request) (s : Running) (ps : List AuthorizationPlugin)
    (st : Running) : pipeFold (q.pipe s) ps st = pipeFold q ps st := by
  induction ps generalizing st with
  | nil => rfl
  | cons p rest ih =>
    simp only [pipeFold, pipe_pipe]
    cases p.AuthZResponse (q.pipe st) with
    | failed err => rfl
    | verdict v =>
      simp only [ih]

/-- The plugin loop of `AuthZResponse` computes the fold along the plugin list: it succeeds
exactly when the fold is defined, and its running values are then the fold. -/
theorem responseLoop_pipeFold (ps : List AuthorizationPlugin) (k : Nat) (q : Request)
    (st : Running) :
    ((responseLoop ps k (some q) st).outcome = .ok →
        pipeFold q ps st = some (responseLoop ps k (some q) st).running) ∧
      (∀ final, pipeFold q ps st = some final →
        (responseLoop ps k (some q) st).outcome = .ok ∧
          (responseLoop ps k (some q) st).running = final) := by
  induction ps generalizing k q st with
  | nil => simp [responseLoop, pipeFold]
  | cons p rest ih =>
    cases hres : p.AuthZResponse (q.pipe st) with
    | failed err => simp [responseLoop, pipeFold, hres]
    | verdict v =>
      cases hallow : v.Allow with
      | false => simp [responseLoop, pipeFold, hres, hallow]
      | true =>
        rw [responseLoop_cons_allow p rest k q st v hres hallow]
        have := ih (k + 1) (q.pipe st) (applyRewrite st v)
        rw [pipeFold_pipe] at this
        simp only [pipeFold, hres, hallow, if_true]
        exact this

/-- What a successful response phase commits, on a context that holds `q`: the body and
headers held by the response modifier are the running values of the plugin loop. -/
theorem committed_of_loop_ok (a : Ctx) (rm : ResponseModifier) (q : Request)
    (final : Running) (hq : a.authReq = some q) (hh : rm.headersErr = none)
    (hok : (responseLoop a.plugins 0 (some q) rm.original).outcome = .ok)
    (hrun : (responseLoop a.plugins 0 (some q) rm.original).running = final) :
    (a.AuthZResponse rm).outcome = .ok ∧
      (a.AuthZResponse rm).rm.body = final.modifiedBody ∧
      (a.AuthZResponse rm).rm.headers = final.modifiedHeaders ∧
      heldBody rm.RawBody (a.AuthZResponse rm).trace = final.modifiedBody ∧
      heldHeaders rm.RawHeaders.1 (a.AuthZResponse rm).trace = final.modifiedHeaders ∧
      (responseCalls (a.AuthZResponse rm).trace).length = a.plugins.length ∧
      final = foldRewrites rm.original (verdicts (responseCalls (a.AuthZResponse rm).trace)) := by
  have hfold := (responseLoop_fold a.plugins 0 q rm.original).2.1 hok
  have hlen := (responseLoop_calls a.plugins 0 q rm.original).2 hok
  rw [hrun] at hfold
  have hcalls := responseCalls_AuthZResponse a rm hh
  rw [hq] at hcalls
  rw [hcalls]
  have hheld := held_after_success rm (responseLoop a.plugins 0 (some q) rm.original).trace
    (responseLoop a.plugins 0 (some q) rm.original).running (responseLoop_trace_calls _ _ _ _)
  have hb := replace_fold_body rm
    (verdicts (responseCalls (responseLoop a.plugins 0 (some q) rm.original).trace))
  have hhd := replace_fold_headers rm
    (verdicts (responseCalls (responseLoop a.plugins 0 (some q) rm.original).trace))
  rw [← hfold] at hb hhd
  rw [← hq] at hok
  have hsucc := AuthZResponse_success a rm hh hok
  rw [hq] at hsucc
  rw [hrun] at hsucc hheld
  rw [hsucc]
  exact ⟨rfl, hb, hhd, hheld.1.trans hb, hheld.2.1.trans hhd, hlen, hfold⟩

/-- Claim C4. On a context that holds a request description, with headers that are read
without error: if every plugin of the list, consulted in list order on the description
that carries the running values, allows, then `AuthZResponse` succeeds, it calls every plugin
of the list, and the body and the headers held by the response modifier afterwards (the
value passed to `OverrideBody` or `OverrideHeader` when it is called, the value originally
read otherwise) are the left fold `pipeFold`, in list order, of the replacements of the
verdicts over the values originally read. Stated on the run: when every call made allows,
the calls are those of the plugins of the list, one for each position, and the values
held are the fold of their verdicts. Hence, for plugins `pa` and `pb` that allow and
supply the bodies `bodyA` and `bodyB`, the list `[pa, pb]` commits `bodyB` and the list
`[pb, pa]` commits `bodyA`. -/
theorem AuthZResponse_commits_fold :
    (∀ (a : Ctx) (rm : ResponseModifier) (q : Request) (final : Running),
      a.authReq = some q → rm.headersErr = none →
      pipeFold q a.plugins rm.original = some final →
      (a.AuthZResponse rm).outcome = .ok ∧
        (a.AuthZResponse rm).rm.body = final.modifiedBody ∧
        (a.AuthZResponse rm).rm.headers = final.modifiedHeaders ∧
        heldBody rm.RawBody (a.AuthZResponse rm).trace = final.modifiedBody ∧
        heldHeaders rm.RawHeaders.1 (a.AuthZResponse rm).trace = final.modifiedHeaders ∧
        (responseCalls (a.AuthZResponse rm).trace).length = a.plugins.length ∧
        final = foldRewrites rm.original
          (verdicts (responseCalls (a.AuthZResponse rm).trace))) ∧
    (∀ (a : Ctx) (rm : ResponseModifier) (q : Request),
      a.authReq = some q → rm.headersErr = none →
      (∀ c ∈ responseCalls (a.AuthZResponse rm).trace, c.2.allows = true) →
      (a.AuthZResponse rm).outcome = .ok ∧
        (responseCalls (a.AuthZResponse rm).trace).length = a.plugins.length ∧
        (∀ n c, (responseCalls (a.AuthZResponse rm).trace)[n]? = some c →
          ∃ p, a.plugins[n]? = some p ∧ c.2 = p.AuthZResponse c.1 ∧
            c.1.responseFacts = foldRewrites rm.original
              (verdicts ((responseCalls (a.AuthZResponse rm).trace).take n))) ∧
        pipeFold q a.plugins rm.original =
          some (foldRewrites rm.original
            (verdicts (responseCalls (a.AuthZResponse rm).trace))) ∧
        (a.AuthZResponse rm).rm.body =
          (foldRewrites rm.original
            (verdicts (responseCalls (a.AuthZResponse rm).trace))).modifiedBody ∧
        (a.AuthZResponse rm).rm.headers =
          (foldRewrites rm.original
            (verdicts (responseCalls (a.AuthZResponse rm).trace))).modifiedHeaders ∧
        heldBody rm.RawBody (a.AuthZResponse rm).trace =
          (foldRewrites rm.original
            (verdicts (responseCalls (a.AuthZResponse rm).trace))).modifiedBody ∧
        heldHeaders rm.RawHeaders.1 (a.AuthZResponse rm).trace =
          (foldRewrites rm.original
            (verdicts (responseCalls (a.AuthZResponse rm).trace))).modifiedHeaders) ∧
    (∀ (a : Ctx) (rm : ResponseModifier) (q : Request) (pa pb : AuthorizationPlugin)
      (bodyA bodyB : List Nat),
      a.authReq = some q → rm.headersErr = none →
      (∀ req, ∃ v, pa.AuthZResponse req = .verdict v ∧ v.Allow = true ∧
        v.ModifiedBody = some bodyA) →
      (∀ req, ∃ v, pb.AuthZResponse req = .verdict v ∧ v.Allow = true ∧
        v.ModifiedBody = some bodyB) →
      (({ a with plugins := [pa, pb] } : Ctx).AuthZResponse rm).rm.body = some bodyB ∧
        (({ a with plugins := [pb, pa] } : Ctx).AuthZResponse rm).rm.body = some bodyA) := by
  refine ⟨?_, ?_, ?_⟩
  · intro a rm q final hq hh hfold
    obtain ⟨hok, hrun⟩ := (responseLoop_pipeFold a.plugins 0 q rm.original).2 final hfold
    exact committed_of_loop_ok a rm q final hq hh hok hrun
  · intro a rm q hq hh hallow
    have hfacts := calls_facts a rm
    have hcalls := responseCalls_AuthZResponse a rm hh
    rw [hq] at hcalls
    have hok : (responseLoop a.plugins 0 (some q) rm.original).outcome = .ok := by
      rw [hcalls] at hallow
      exact (responseLoop_fold a.plugins 0 q rm.original).1.mpr hallow
    obtain ⟨h1, h2, h3, h4, h5, h6, h7⟩ := committed_of_loop_ok a rm q _ hq hh hok rfl
    have hpf := (responseLoop_pipeFold a.plugins 0 q rm.original).1 hok
    rw [h7] at hpf h2 h3 h4 h5
    refine ⟨h1, h6, ?_, hpf, h2, h3, h4, h5⟩
    intro n c hc
    have hc' := hc
    rw [hcalls] at hc'
    obtain ⟨p, hp, hres⟩ := ((responseLoop_calls a.plugins 0 q rm.original).1 n c hc').1
    exact ⟨p, hp, hres, hfacts n c hc⟩
  · intro a rm q pa pb bodyA bodyB hq hh hpa hpb
    have two : ∀ (p1 p2 : AuthorizationPlugin) (b1 b2 : List Nat),
        (∀ req, ∃ v, p1.AuthZResponse req = .verdict v ∧ v.Allow = true ∧
          v.ModifiedBody = some b1) →
        (∀ req, ∃ v, p2.AuthZResponse req = .verdict v ∧ v.Allow = true ∧
          v.ModifiedBody = some b2) →
        (({ a with plugins := [p1, p2] } : Ctx).AuthZResponse rm).rm.body = some b2 := by
      intro p1 p2 b1 b2 h1 h2
      obtain ⟨v1, hv1, ha1, _⟩ := h1 (q.pipe rm.original)
      obtain ⟨v2, hv2, ha2, hb2⟩ := h2 ((q.pipe rm.original).pipe (applyRewrite rm.original v1))
      have hloop := responseLoop_cons_allow p1 [p2] 0 q rm.original v1 hv1 ha1
      rw [responseLoop_cons_allow p2 [] 1 _ _ v2 hv2 ha2] at hloop
      simp only [responseLoop_nil] at hloop
      have hok : (responseLoop ({ a with plugins := [p1, p2] } : Ctx).plugins 0
          ({ a with plugins := [p1, p2] } : Ctx).authReq rm.original).outcome = .ok := by
        simp only [hq, hloop]
      rw [AuthZResponse_success _ rm hh hok]
      simp only [hq, hloop, applyRewrite, replace, hb2]
    exact ⟨two pa pb bodyA bodyB hpa hpb, two pb pa bodyB bodyA hpb hpa⟩

theorem AuthZResponse_commits_fold_witness :
    (((sessionCtx [allowAll, allowAll, rewriteBody [82]]).AuthZResponse
          sampleResponse).outcome = .ok ∧
      ((sessionCtx [allowAll, allowAll, rewriteBody [82]]).AuthZResponse
          sampleResponse).rm.body = some [82] ∧
      (responseCalls ((sessionCtx [allowAll, allowAll, rewriteBody [82]]).AuthZResponse
          sampleResponse).trace).length = 3) ∧
      (responseCalls ((sessionCtx [allowAll, rewriteBody [82], allowAll]).AuthZResponse
          sampleResponse).trace).length = 3 ∧
      ((({ sessionCtx [] with plugins := [rewriteBody [1], rewriteBody [2]] } :
          Ctx).AuthZResponse sampleResponse).rm.body = some [2] ∧
        (({ sessionCtx [] with plugins := [rewriteBody [2], rewriteBody [1]] } :
          Ctx).AuthZResponse sampleResponse).rm.body = some [1]) :=
  ⟨⟨(AuthZResponse_commits_fold.1 (sessionCtx [allowAll, allowAll, rewriteBody [82]])
        sampleResponse sampleSnapshot ⟨some [82], some [9], 200⟩ rfl rfl (by decide)).1,
      (AuthZResponse_commits_fold.1 (sessionCtx [allowAll, allowAll, rewriteBody [82]])
        sampleResponse sampleSnapshot ⟨some [82], some [9], 200⟩ rfl rfl (by decide)).2.1,
      (AuthZResponse_commits_fold.1 (sessionCtx [allowAll, allowAll, rewriteBody [82]])
        sampleResponse sampleSnapshot ⟨some [82], some [9], 200⟩ rfl rfl
        (by decide)).2.2.2.2.2.1⟩,
    (AuthZResponse_commits_fold.2.1 (sessionCtx [allowAll, rewriteBody [82], allowAll])
      sampleResponse sampleSnapshot rfl rfl (by decide)).2.1,
    AuthZResponse_commits_fold.2.2 (sessionCtx []) sampleResponse sampleSnapshot
      (rewriteBody [1]) (rewriteBody [2]) [1] [2] rfl rfl
      (fun _ => ⟨_, rfl, rfl, rfl⟩) (fun _ => ⟨_, rfl, rfl, rfl⟩)⟩

/-! ## Draining the request body -/

/-- On a body that is read and closed without error, `drainBody` exhausts and closes the
body and adds a backing array with the bytes read and two readers at its start. -/
theorem drainBody_heap (h : Heap) (b : StreamRef) (rc : ReadCloser) (closed : Bool)
    (hstream : h.streams[b]? = some (.source rc closed))
    (hread : rc.readErr = none) (hclose : rc.closeErr = none) :
    h.drainBody b =
      (some h.streams.length, some (h.streams.length + 1), none,
        drainedHeap (h.streams.set b (.source { rc with data := [] } true)) h.arrays
          rc.data 0 0) := by
  have hb : b < h.streams.length := (List.getElem?_eq_some_iff.mp hstream).1
  simp [Heap.drainBody, Heap.ReadAll, Heap.Close, hstream, hread, hclose, hb, drainedHeap]

theorem drainedHeap_first (ss : List Stream) (arrs : List (List Nat)) (buf : List Nat)
    (off1 off2 : Nat) :
    (drainedHeap ss arrs buf off1 off2).streams[ss.length]? = some (.memory arrs.length off1) ∧
      (drainedHeap ss arrs buf off1 off2).streams[ss.length + 1]? =
        some (.memory arrs.length off2) ∧
      (drainedHeap ss arrs buf off1 off2).arrays.getD arrs.length [] = buf := by
  refine ⟨?_, ?_, ?_⟩
  · simp only [drainedHeap]
    rw [List.getElem?_append_right (Nat.le_refl _)]
    simp
  · simp only [drainedHeap]
    rw [List.getElem?_append_right (Nat.le_add_right _ _)]
    simp
  · simp only [drainedHeap, List.getD_eq_getElem?_getD]
    rw [List.getElem?_append_right (Nat.le_refl _)]
    simp

/-- Reading the first reader to its end yields the bytes from its offset on and moves its
offset only. -/
theorem ReadAll_first (ss : List Stream) (arrs : List (List Nat)) (buf : List Nat)
    (off1 off2 : Nat) :
    (drainedHeap ss arrs buf off1 off2).ReadAll ss.length =
      (buf.drop off1, none, drainedHeap ss arrs buf (off1 + (buf.drop off1).length) off2) := by
  obtain ⟨h1, _, h3⟩ := drainedHeap_first ss arrs buf off1 off2
  simp only [Heap.ReadAll, h1, h3]
  simp [drainedHeap, List.set_append_right]

/-- Reading the second reader to its end yields the bytes from its offset on and moves its
offset only. -/
theorem ReadAll_second (ss : List Stream) (arrs : List (List Nat)) (buf : List Nat)
    (off1 off2 : Nat) :
    (drainedHeap ss arrs buf off1 off2).ReadAll (ss.length + 1) =
      (buf.drop off2, none, drainedHeap ss arrs buf off1 (off2 + (buf.drop off2).length)) := by
  obtain ⟨_, h2, h3⟩ := drainedHeap_first ss arrs buf off1 off2
  simp only [Heap.ReadAll, h2, h3]
  simp [drainedHeap, List.set_append_right]

/-- A read of `n` bytes from the first reader yields the next `n` bytes and moves its
offset only. -/
theorem Read_first (ss : List Stream) (arrs : List (List Nat)) (buf : List Nat)
    (off1 off2 n : Nat) :
    (drainedHeap ss arrs buf off1 off2).Read ss.length n =
      ((buf.drop off1).take n,
        drainedHeap ss arrs buf (off1 + ((buf.drop off1).take n).length) off2) := by
  obtain ⟨h1, _, h3⟩ := drainedHeap_first ss arrs buf off1 off2
  simp only [Heap.Read, h1, h3]
  simp [drainedHeap, List.set_append_right]

/-- A read of `n` bytes from the second reader yields the next `n` bytes and moves its
offset only. -/
theorem Read_second (ss : List Stream) (arrs : List (List Nat)) (buf : List Nat)
    (off1 off2 n : Nat) :
    (drainedHeap ss arrs buf off1 off2).Read (ss.length + 1) n =
      ((buf.drop off2).take n,
        drainedHeap ss arrs buf off1 (off2 + ((buf.drop off2).take n).length)) := by
  obtain ⟨_, h2, h3⟩ := drainedHeap_first ss arrs buf off1 off2
  simp only [Heap.Read, h2, h3]
  simp [drainedHeap, List.set_append_right]

theorem Close_first (ss : List Stream) (arrs : List (List Nat)) (buf : List Nat)
    (off1 off2 : Nat) :
    (drainedHeap ss arrs buf off1 off2).Close ss.length =
      (none, drainedHeap ss arrs buf off1 off2) := by
  obtain ⟨h1, _, _⟩ := drainedHeap_first ss arrs buf off1 off2
  simp only [Heap.Close, h1]

/-- What `AuthZRequest` does on the heap to a body that is read and closed without error:
the body is exhausted and closed, the first reader is read to its end, the second is
installed on the request unread, and the run goes on as the headers allow. -/
theorem heap_AuthZRequest (h : Heap) (a : Ctx) (r : HeapRequest) (b : StreamRef)
    (rc : ReadCloser) (closed : Bool) (hbody : r.Body = some b)
    (hstream : h.streams[b]? = some (.source rc closed))
    (hread : rc.readErr = none) (hclose : rc.closeErr = none) :
    (h.AuthZRequest a r).r = { r with Body := some (h.streams.length + 1) } ∧
      (h.AuthZRequest a r).heap =
        drainedHeap (h.streams.set b (.source { rc with data := [] } true)) h.arrays
          rc.data rc.data.length 0 ∧
      (r.Header.writeErr = none →
        (h.AuthZRequest a r).ctx =
          { a with authReq := some (a.newRequest (some rc.data) r.Header.wire) } ∧
        (h.AuthZRequest a r).outcome =
          (requestLoop (a.newRequest (some rc.data) r.Header.wire) a.plugins 0).1 ∧
        (h.AuthZRequest a r).trace =
          (requestLoop (a.newRequest (some rc.data) r.Header.wire) a.plugins 0).2) := by
  have hlen : (h.streams.set b (.source { rc with data := [] } true)).length =
      h.streams.length := List.length_set _ _ _
  have hread1 := ReadAll_first (h.streams.set b (.source { rc with data := [] } true))
    h.arrays rc.data 0 0
  have hclose1 := Close_first (h.streams.set b (.source { rc with data := [] } true))
    h.arrays rc.data rc.data.length 0
  rw [hlen] at hread1 hclose1
  simp only [List.drop_zero, Nat.zero_add] at hread1
  cases hw : r.Header.writeErr with
  | some e =>
    simp [Heap.AuthZRequest, hbody, drainBody_heap h b rc closed hstream hread hclose, hread1,
      hclose1, hw]
  | none =>
    simp [Heap.AuthZRequest, hbody, drainBody_heap h b rc closed hstream hread hclose, hread1,
      hclose1, hw]

/-- Claim C10. Let the request body be a stream on the heap that is read and closed
without error and yields the bytes `b`. Then `drainBody` exhausts and closes that stream
and returns two new readers, distinct from each other and from the body, that each yield
exactly `b` when read in full; a read of any length from one of them, or reading it to
its end, leaves what the other yields unchanged, while the reader that was read is
itself exhausted. After `AuthZRequest`, however the headers and the plugin list answer, the
stream installed on the request yields exactly `b` when read in full, although the first
copy has been read to its end; and the snapshot that is stored once the headers are
written holds `b` as `RequestBody`. -/
theorem drainBody_round_trip (h : Heap) (a : Ctx) (r : HeapRequest) (b : StreamRef)
    (rc : ReadCloser) (closed : Bool) (hbody : r.Body = some b)
    (hstream : h.streams[b]? = some (.source rc closed))
    (hread : rc.readErr = none) (hclose : rc.closeErr = none) :
    (∃ r1 r2 h', h.drainBody b = (some r1, some r2, none, h') ∧
        r1 ≠ r2 ∧ r1 ≠ b ∧ r2 ≠ b ∧
        h'.streams[b]? = some (.source { rc with data := [] } true) ∧
        (h'.ReadAll r1).1 = rc.data ∧ (h'.ReadAll r1).2.1 = none ∧
        (h'.ReadAll r2).1 = rc.data ∧ (h'.ReadAll r2).2.1 = none ∧
        (∀ n, (h'.Read r1 n).1 = rc.data.take n ∧
          ((h'.Read r1 n).2.ReadAll r2).1 = rc.data) ∧
        (∀ n, (h'.Read r2 n).1 = rc.data.take n ∧
          ((h'.Read r2 n).2.ReadAll r1).1 = rc.data) ∧
        ((h'.ReadAll r1).2.2.ReadAll r2).1 = rc.data ∧
        ((h'.ReadAll r2).2.2.ReadAll r1).1 = rc.data ∧
        ((h'.ReadAll r1).2.2.ReadAll r1).1 = [] ∧
        ((h'.ReadAll r2).2.2.ReadAll r2).1 = []) ∧
      (∃ installed, (h.AuthZRequest a r).r.Body = some installed ∧ installed ≠ b ∧
        ((h.AuthZRequest a r).heap.ReadAll installed).1 = rc.data ∧
        ((h.AuthZRequest a r).heap.ReadAll installed).2.1 = none) ∧
      (r.Header.writeErr = none →
        ∃ q, (h.AuthZRequest a r).ctx.authReq = some q ∧ q.RequestBody = some rc.data) := by
  have hb : b < h.streams.length := (List.getElem?_eq_some_iff.mp hstream).1
  have hlen : (h.streams.set b (.source { rc with data := [] } true)).length =
      h.streams.length := List.length_set _ _ _
  have hfirst := fun o1 o2 =>
    ReadAll_first (h.streams.set b (.source { rc with data := [] } true)) h.arrays rc.data o1 o2
  have hsecond := fun o1 o2 =>
    ReadAll_second (h.streams.set b (.source { rc with data := [] } true)) h.arrays rc.data
      o1 o2
  have hrfirst := fun o1 o2 n =>
    Read_first (h.streams.set b (.source { rc with data := [] } true)) h.arrays rc.data
      o1 o2 n
  have hrsecond := fun o1 o2 n =>
    Read_second (h.streams.set b (.source { rc with data := [] } true)) h.arrays rc.data
      o1 o2 n
  simp only [hlen] at hfirst hsecond hrfirst hrsecond
  obtain ⟨hr, hheap, hctx⟩ := heap_AuthZRequest h a r b rc closed hbody hstream hread hclose
  refine ⟨⟨_, _, _, drainBody_heap h b rc closed hstream hread hclose, ?_, ?_, ?_, ?_, ?_, ?_,
    ?_, ?_, ?_, ?_, ?_, ?_, ?_, ?_⟩, ⟨h.streams.length + 1, ?_, ?_, ?_, ?_⟩, ?_⟩
  · exact Nat.ne_of_lt (Nat.lt_succ_self _)
  · exact Nat.ne_of_gt hb
  · exact Nat.ne_of_gt (Nat.lt_succ_of_lt hb)
  · simp only [drainedHeap]
    rw [List.getElem?_append_left (by rw [hlen]; exact hb)]
    simp [hb]
  · rw [hfirst]
    rfl
  · rw [hfirst]
  · rw [hsecond]
    rfl
  · rw [hsecond]
  · intro n
    rw [hrfirst, hsecond]
    exact ⟨rfl, rfl⟩
  · intro n
    rw [hrsecond, hfirst]
    exact ⟨rfl, rfl⟩
  · rw [hfirst, hsecond]
    rfl
  · rw [hsecond, hfirst]
    rfl
  · rw [hfirst, hfirst]
    simp
  · rw [hsecond, hsecond]
    simp
  · rw [hr]
  · exact Nat.ne_of_gt (Nat.lt_succ_of_lt hb)
  · rw [hheap, hsecond]
    rfl
  · rw [hheap, hsecond]
  · intro hw
    rw [(hctx hw).1]
    exact ⟨_, rfl, rfl⟩

theorem drainBody_round_trip_witness :
    ∃ installed,
      (sampleHeap.AuthZRequest (sampleCtx [denyWith "no"]) sampleHeapRequest).r.Body =
          some installed ∧
        installed ≠ 0 ∧
        ((sampleHeap.AuthZRequest (sampleCtx [denyWith "no"]) sampleHeapRequest).heap.ReadAll
          installed).1 = [1, 2, 3] ∧
        ((sampleHeap.AuthZRequest (sampleCtx [denyWith "no"]) sampleHeapRequest).heap.ReadAll
          installed).2.1 = none :=
  (drainBody_round_trip sampleHeap (sampleCtx [denyWith "no"]) sampleHeapRequest 0
    { data := [1, 2, 3], readErr := none, closeErr := none } false rfl rfl rfl rfl).2.1

/-- The run of `AuthZRequest` on the heap ends, stores and calls as `Ctx.AuthZRequest` does
on the request whose body is described by the state of the stream. -/
theorem heap_AuthZRequest_agrees (h : Heap) (a : Ctx) (r : HeapRequest) (b : StreamRef)
    (rc : ReadCloser) (closed : Bool) (hbody : r.Body = some b)
    (hstream : h.streams[b]? = some (.source rc closed)) :
    (h.AuthZRequest a r).outcome = (a.AuthZRequest ⟨some rc, r.Header⟩).outcome ∧
      (h.AuthZRequest a r).ctx = (a.AuthZRequest ⟨some rc, r.Header⟩).ctx ∧
      (h.AuthZRequest a r).trace = (a.AuthZRequest ⟨some rc, r.Header⟩).trace := by
  have hb : b < h.streams.length := (List.getElem?_eq_some_iff.mp hstream).1
  cases hread : rc.readErr with
  | some e =>
    simp [Heap.AuthZRequest, Heap.drainBody, Heap.ReadAll, hbody, hstream, hread,
      Ctx.AuthZRequest, drainBody, ReadCloser.ReadAll]
  | none =>
    cases hclose : rc.closeErr with
    | some e =>
      simp [Heap.AuthZRequest, Heap.drainBody, Heap.ReadAll, Heap.Close, hbody, hstream, hread,
        hclose, hb, Ctx.AuthZRequest, drainBody, ReadCloser.ReadAll]
    | none =>
      obtain ⟨_, _, hctx⟩ := heap_AuthZRequest h a r b rc closed hbody hstream hread hclose
      cases hw : r.Header.writeErr with
      | none =>
        obtain ⟨h1, h2, h3⟩ := hctx hw
        rw [h1, h2, h3, AuthZRequest_built a ⟨some rc, r.Header⟩ rc rfl hread hclose hw]
        exact ⟨rfl, rfl, rfl⟩
      | some e =>
        obtain ⟨g1, g2, g3⟩ := AuthZRequest_build_error a ⟨some rc, r.Header⟩ rc e rfl
          (Or.inr (Or.inr ⟨hread, hclose, hw⟩))
        rw [g1, g2, g3]
        have hlen : (h.streams.set b (.source { rc with data := [] } true)).length =
            h.streams.length := List.length_set _ _ _
        have hread1 := ReadAll_first (h.streams.set b (.source { rc with data := [] } true))
          h.arrays rc.data 0 0
        rw [hlen] at hread1
        simp only [List.drop_zero, Nat.zero_add] at hread1
        simp [Heap.AuthZRequest, hbody, drainBody_heap h b rc closed hstream hread hclose,
          hread1, hw]

end Authorization
